/-
  Verification of the PII detection / masking / validation / restoration
  pipeline of this repository (src/src/lib/text-processor.ts and the
  companion random-data module).

  Strings are modelled as `List Char` (all characters appearing in the
  pipeline are in the Basic Multilingual Plane, so JavaScript UTF-16
  code-unit indices coincide with character indices).  JavaScript string
  primitives (`includes`, `substring`, `replace` with a string pattern,
  `padStart`) are embedded as executable functions below.  `String.replace`
  is embedded faithfully, including the ECMA-262 GetSubstitution expansion
  of `$`-sequences in the replacement string; the round-trip theorem
  carries a no-dollar hypothesis on the text, under which the expansion
  is provably literal.

  The two variants of the processor that the claims reference live in
  namespaces `TP1` (the deterministic-tag document of text-processor.ts)
  and `TP2` (the realistic-substitute document together with the
  random-data pools).
-/
import Mathlib

set_option maxRecDepth 100000

/-- The character written `'‌'` in the source (named ZERO_WIDTH_SPACE there). -/
def ZWSP : Char := Char.ofNat 8204

/-- JavaScript `a.startsWith(b)` on our list model. -/
def lcStartsWith : List Char → List Char → Bool
  | _, [] => true
  | [], _ :: _ => false
  | c :: cs, p :: ps => c == p && lcStartsWith cs ps

/-- JavaScript `hay.includes(pat)`. -/
def strIncludes : List Char → List Char → Bool
  | [], pat => pat.isEmpty
  | c :: cs, pat => lcStartsWith (c :: cs) pat || strIncludes cs pat

/-- Literal first-occurrence replacement: the behavior of JavaScript
`hay.replace(pat, repl)` when the replacement contains no `$` character
(`replaceFirst_eq_lit` below proves the coincidence). -/
def replaceFirstLit : List Char → List Char → List Char → List Char
  | [], pat, repl => if pat.isEmpty then repl else []
  | c :: cs, pat, repl =>
    if lcStartsWith (c :: cs) pat then repl ++ (c :: cs).drop pat.length
    else c :: replaceFirstLit cs pat repl

/-- The index of the first occurrence of `pat` in `hay` (JavaScript
`String.indexOf`). -/
def findFirstIdx? : List Char → List Char → Option Nat
  | [], pat => if lcStartsWith [] pat then some 0 else none
  | c :: cs, pat =>
    if lcStartsWith (c :: cs) pat then some 0
    else (findFirstIdx? cs pat).map (fun i => i + 1)

/-- ECMA-262 GetSubstitution for a string pattern (so with no capture
groups): `$$` yields `$`, `$&` the matched string, `$` + backtick the
text before the match, `$` + quote the text after it; any other `$`,
including `$n` and `$<`, is literal because there are no captures. -/
def getSubstitution (matched pre post : List Char) : List Char → List Char
  | [] => []
  | [c] => [c]
  | c :: d :: rest =>
    if c = '$' then
      if d = '$' then '$' :: getSubstitution matched pre post rest
      else if d = '&' then matched ++ getSubstitution matched pre post rest
      else if d = Char.ofNat 96 then pre ++ getSubstitution matched pre post rest
      else if d = Char.ofNat 39 then post ++ getSubstitution matched pre post rest
      else c :: getSubstitution matched pre post (d :: rest)
    else c :: getSubstitution matched pre post (d :: rest)

/-- JavaScript `hay.replace(pat, repl)` with a string pattern: replace
the first occurrence of `pat`, expanding the `$`-sequences of `repl`
against the matched string and its surroundings, or return `hay`
unchanged if there is none. -/
def replaceFirst (hay pat repl : List Char) : List Char :=
  match findFirstIdx? hay pat with
  | none => hay
  | some p =>
    hay.take p ++
      getSubstitution pat (hay.take p) (hay.drop (p + pat.length)) repl ++
      hay.drop (p + pat.length)

/-- JavaScript `text.replace(new RegExp(ch, 'g'), '')`: delete every
occurrence of the character `ch`. -/
def removeAll (l : List Char) (ch : Char) : List Char :=
  l.filter (fun c => c ≠ ch)

/-- Decimal digit character. -/
def digitChar (d : Nat) : Char := Char.ofNat (48 + d)

/-- Decimal digits with explicit fuel (`n / 10 < n`, so fuel `n` always
suffices and the zero-fuel branch is unreachable). -/
def natDigitsGo : Nat → Nat → List Char
  | 0, n => [digitChar (n % 10)]
  | fuel + 1, n =>
    if n < 10 then [digitChar n]
    else natDigitsGo fuel (n / 10) ++ [digitChar (n % 10)]

/-- Decimal digits of a natural number, as produced by JavaScript
`n.toString()`. -/
def natDigits (n : Nat) : List Char := natDigitsGo n n

/-- JavaScript `s.padStart(6, '0')`. -/
def padStart6 (s : List Char) : List Char :=
  List.replicate (6 - s.length) '0' ++ s

/-- Reading a digit string back as a number (used only in proofs). -/
def ofDigits (l : List Char) : Nat :=
  l.foldl (fun a c => a * 10 + (c.toNat - 48)) 0

/- ----------------------------------------------------------------- -/
/- A small backtracking regular-expression engine with JavaScript
   semantics: leftmost match, greedy quantifiers, left-biased
   alternation, word boundaries.  The source's seven detection regexes
   are expressed as terms of `RE` below. -/

/-- Regular expressions: character classes, sequencing, alternation,
greedy star, greedy option, word boundary, empty. -/
inductive RE where
  | eps
  | cls (p : Char → Bool)
  | seq (a b : RE)
  | alt (a b : RE)
  | star (a : RE)
  | opt (a : RE)
  | wb
deriving Inhabited

/-- Matcher position: the previous character (for `\b`) and the rest of
the input. -/
structure MPos where
  prev : Option Char
  rest : List Char
deriving Repr

/-- JavaScript word character, for `\b`. -/
def isWordChar (c : Char) : Bool :=
  ('A' ≤ c && c ≤ 'Z') || ('a' ≤ c && c ≤ 'z') || ('0' ≤ c && c ≤ '9') || c == '_'

def isWordOpt : Option Char → Bool
  | none => false
  | some c => isWordChar c

def isWordHead : List Char → Bool
  | [] => false
  | c :: _ => isWordChar c

/-- All ways a regex can consume input from a position, in JavaScript
backtracking priority order (first element = the match the engine
commits to).  `fuel` bounds recursion depth; it is chosen large enough
at every call site. -/
def munch : Nat → RE → MPos → List MPos
  | 0, _, _ => []
  | _ + 1, .eps, p => [p]
  | _ + 1, .cls f, p =>
    match p.rest with
    | [] => []
    | c :: cs => if f c then [⟨some c, cs⟩] else []
  | n + 1, .seq a b, p => (munch n a p).flatMap (munch n b)
  | n + 1, .alt a b, p => munch n a p ++ munch n b p
  | n + 1, .star a, p =>
    ((munch n a p).filter (fun q => q.rest.length < p.rest.length)).flatMap
      (munch n (.star a)) ++ [p]
  | n + 1, .opt a, p => munch n a p ++ [p]
  | _ + 1, .wb, p => if isWordOpt p.prev != isWordHead p.rest then [p] else []

/-- Greedy `+`. -/
def RE.plus (a : RE) : RE := .seq a (.star a)

/-- Greedy `{0,k}`. -/
def RE.upto : Nat → RE → RE
  | 0, _ => .eps
  | k + 1, a => .opt (.seq a (RE.upto k a))

/-- `a{n}`. -/
def RE.rep : Nat → RE → RE
  | 0, _ => .eps
  | k + 1, a => .seq a (RE.rep k a)

/-- Literal character. -/
def RE.ch (c : Char) : RE := .cls (fun x => x == c)

/-- Case-insensitive literal character (for the `/i` flag). -/
def RE.chCI (c : Char) : RE := .cls (fun x => x.toLower == c.toLower)

/-- Literal string. -/
def RE.lit (s : List Char) : RE := s.foldr (fun c r => .seq (RE.ch c) r) .eps

/-- Case-insensitive literal string. -/
def RE.litCI (s : List Char) : RE := s.foldr (fun c r => .seq (RE.chCI c) r) .eps

/-- Fuel bound that dominates the recursion depth of `munch` for the
regexes used here. -/
def reFuel (rest : List Char) : Nat := 80 * (rest.length + 20)

/-- Try to match `re` anchored at the given position; returns the number
of characters consumed by the committed (highest-priority) match. -/
def tryAt (re : RE) (prev : Option Char) (rest : List Char) : Option Nat :=
  match munch (reFuel rest) re ⟨prev, rest⟩ with
  | [] => none
  | q :: _ => some (rest.length - q.rest.length)

/-- Leftmost match at or after the current position: returns the offset
from the current position and the match length. -/
def scanFrom (re : RE) : Option Char → List Char → Option (Nat × Nat)
  | prev, [] => match tryAt re prev [] with
    | some len => some (0, len)
    | none => none
  | prev, c :: cs => match tryAt re prev (c :: cs) with
    | some len => some (0, len)
    | none => match scanFrom re (some c) cs with
      | some (off, len) => some (off + 1, len)
      | none => none

/-- One step of the JavaScript `while ((m = re.exec(text)) !== null)`
loop with the `g` flag: successive non-overlapping leftmost matches,
resuming after each match.  Matches are returned as (index, value)
pairs; the value is the consumed span of the input.  (The source's loop
would not terminate on an empty match; none of the seven patterns can
match the empty string, and the fuel merely truncates that impossible
case.) -/
def execLoop (re : RE) (text : List Char) : Nat → Nat → List (Nat × List Char)
  | 0, _ => []
  | fuel + 1, pos =>
    let prev := if pos = 0 then none else (text.take pos).getLast?
    match scanFrom re prev (text.drop pos) with
    | none => []
    | some (off, len) =>
      let i := pos + off
      (i, (text.drop i).take len) :: execLoop re text fuel (i + len)

/-- All matches of `re.exec` over `text` with the `g` flag. -/
def execAll (re : RE) (text : List Char) : List (Nat × List Char) :=
  execLoop re text (text.length + 1) 0

/- ----------------------------------------------------------------- -/
/- Character classes appearing in the source's regexes. -/

def isUpperAZ (c : Char) : Bool := 'A' ≤ c && c ≤ 'Z'
def isLowerAZ (c : Char) : Bool := 'a' ≤ c && c ≤ 'z'
def isDigit09 (c : Char) : Bool := '0' ≤ c && c ≤ '9'

/-- JavaScript `\s`. -/
def isSpaceJS (c : Char) : Bool :=
  c == ' ' || c == '\t' || c == '\n' || c.toNat == 11 || c.toNat == 12 ||
  c == '\r' || c.toNat == 160 || c.toNat == 5760 ||
  (8192 ≤ c.toNat && c.toNat ≤ 8202) || c.toNat == 8232 || c.toNat == 8233 ||
  c.toNat == 8239 || c.toNat == 8287 || c.toNat == 12288 || c.toNat == 65279

/-- `[A-Za-z0-9._%+-]` (email local part). -/
def isEmailLocal (c : Char) : Bool :=
  isUpperAZ c || isLowerAZ c || isDigit09 c || c == '.' || c == '_' || c == '%' || c == '+' || c == '-'

/-- `[A-Za-z0-9.-]` (email domain). -/
def isEmailDomain (c : Char) : Bool :=
  isUpperAZ c || isLowerAZ c || isDigit09 c || c == '.' || c == '-'

/-- `[A-Z|a-z]` — the source's TLD class literally contains `|`. -/
def isTld (c : Char) : Bool := isUpperAZ c || isLowerAZ c || c == '|'

/-- `[A-Za-z\s,]` (middle of an address). -/
def isAddrMid (c : Char) : Bool := isUpperAZ c || isLowerAZ c || isSpaceJS c || c == ','

/-- `[-.\s]` (phone separators). -/
def isPhoneSep (c : Char) : Bool := c == '-' || c == '.' || isSpaceJS c

/-- `[-.]` (ssn separators). -/
def isSsnSep (c : Char) : Bool := c == '-' || c == '.'

/-- Date separators: dash or slash. -/
def isDobSep (c : Char) : Bool := c == '-' || c == '/'

/- The seven regexes of the deterministic-tag detector, in source order. -/

/-- `/\b[A-Z][a-z]+(?:\s+[A-Z][a-z]+)+\b/g` -/
def nameRE : RE :=
  .seq .wb (.seq (.cls isUpperAZ) (.seq (RE.plus (.cls isLowerAZ))
    (.seq (RE.plus (.seq (RE.plus (.cls isSpaceJS))
      (.seq (.cls isUpperAZ) (RE.plus (.cls isLowerAZ))))) .wb)))

/-- `/\b[A-Za-z0-9._%+-]+@[A-Za-z0-9.-]+\.[A-Z|a-z]{2,}\b/g` -/
def emailRE : RE :=
  .seq .wb (.seq (RE.plus (.cls isEmailLocal)) (.seq (RE.ch '@')
    (.seq (RE.plus (.cls isEmailDomain)) (.seq (RE.ch '.')
      (.seq (.cls isTld) (.seq (.cls isTld) (.seq (.star (.cls isTld)) .wb)))))))

/-- `/(?:\+\d{1,3}[-.\s]?)?\(?\d{3}\)?[-.\s]?\d{3}[-.\s]?\d{4}\b/g` -/
def phoneRE : RE :=
  .seq (.opt (.seq (RE.ch '+') (.seq (.seq (.cls isDigit09) (RE.upto 2 (.cls isDigit09)))
      (.opt (.cls isPhoneSep)))))
    (.seq (.opt (RE.ch '(')) (.seq (RE.rep 3 (.cls isDigit09))
      (.seq (.opt (RE.ch ')')) (.seq (.opt (.cls isPhoneSep))
        (.seq (RE.rep 3 (.cls isDigit09)) (.seq (.opt (.cls isPhoneSep))
          (.seq (RE.rep 4 (.cls isDigit09)) .wb)))))))

/-- `/\b\d{3}[-.]?\d{2}[-.]?\d{4}\b/g` -/
def ssnRE : RE :=
  .seq .wb (.seq (RE.rep 3 (.cls isDigit09)) (.seq (.opt (.cls isSsnSep))
    (.seq (RE.rep 2 (.cls isDigit09)) (.seq (.opt (.cls isSsnSep))
      (.seq (RE.rep 4 (.cls isDigit09)) .wb)))))

/-- The dobRegex: digits in 1-2/1-2/2-4 or 4/1-2/1-2 groups separated by
a dash-or-slash class, bracketed by word boundaries, `g` flag. -/
def dobRE : RE :=
  let d := RE.cls isDigit09
  let d12 : RE := .seq d (.opt d)
  let d24 : RE := .seq d (.seq d (RE.upto 2 d))
  let sep := RE.cls isDobSep
  .seq .wb (.seq (.alt
      (.seq d12 (.seq sep (.seq d12 (.seq sep d24))))
      (.seq (RE.rep 4 d) (.seq sep (.seq d12 (.seq sep d12))))) .wb)

/-- The street-type alternation of the address regex, in source order
(matched case-insensitively because of the `/i` flag). -/
def streetTypes : List (List Char) :=
  ["Avenue".data, "Ave".data, "Street".data, "St".data, "Road".data, "Rd".data,
   "Boulevard".data, "Blvd".data, "Lane".data, "Ln".data, "Drive".data, "Dr".data,
   "Circle".data, "Cir".data, "Court".data, "Ct".data, "Way".data, "Place".data, "Pl".data]

/-- `/\b\d+\s+[A-Za-z\s,]+(?:Avenue|Ave|...|Way|Place|Pl)\b/gi` -/
def addressRE : RE :=
  let alts := (streetTypes.map RE.litCI).foldr RE.alt (.cls (fun _ => false))
  .seq .wb (.seq (RE.plus (.cls isDigit09)) (.seq (RE.plus (.cls isSpaceJS))
    (.seq (RE.plus (.cls isAddrMid)) (.seq alts .wb))))

/-- `/\b\d{8,17}\b/g` -/
def accountRE : RE :=
  .seq .wb (.seq (RE.rep 8 (.cls isDigit09)) (.seq (RE.upto 9 (.cls isDigit09)) .wb))

namespace TP1

/-- `SensitiveDataType` of the deterministic-tag document. -/
inductive SensitiveDataType where
  | name | email | phone | address | ssn | dob | account
deriving DecidableEq, Repr

open SensitiveDataType

/-- One detected occurrence (`DetectedEntity` of the source). -/
structure DetectedEntity where
  type : SensitiveDataType
  value : List Char
  placeholder : List Char
  index : Nat
deriving DecidableEq, Repr

/-- `ValidationResult` of the deterministic-tag document.
`similarPlaceholders` entries are (original, modified) pairs. -/
structure ValidationResult where
  isValid : Bool
  missingPlaceholders : List (List Char)
  alteredPlaceholders : List (List Char)
  invalidFormatPlaceholders : List (List Char)
  recoverable : Bool
  similarPlaceholders : List (List Char × List Char)
deriving DecidableEq, Repr

/-- Opening bracket of `BRACKET_STYLES`. -/
def openBracket : SensitiveDataType → Char
  | name => '⟦' | email => '❰' | phone => '⟪' | address => '⟬'
  | ssn => '❲' | dob => '⟨' | account => '❴'

/-- Closing bracket of `BRACKET_STYLES`. -/
def closeBracket : SensitiveDataType → Char
  | name => '⟧' | email => '❱' | phone => '⟫' | address => '⟭'
  | ssn => '❳' | dob => '⟩' | account => '❵'

/-- Upper-cased kind name (`type.toUpperCase()`). -/
def typeUpper : SensitiveDataType → List Char
  | name => "NAME".data | email => "EMAIL".data | phone => "PHONE".data
  | address => "ADDRESS".data | ssn => "SSN".data | dob => "DOB".data
  | account => "ACCOUNT".data

/-- `generatePlaceholder`: zero-width marker, kind-specific bracket,
`UID:KIND:` and the six-padded sequence number. -/
def generatePlaceholder (t : SensitiveDataType) (i : Nat) : List Char :=
  ZWSP :: openBracket t ::
    ("UID:".data ++ typeUpper t ++ [':'] ++ padStart6 (natDigits i) ++
     [closeBracket t, ZWSP])

/-- One row update of the `levenshteinDistance` dynamic-programming
matrix: given the row for `j-1` and the character `b[j-1]`, produce the
entries `matrix[j][i]` for `i ≥ 1` (`left` is `matrix[j][i-1]`). -/
def levNextRow (bj : Char) : List Char → List Nat → Nat → List Nat
  | [], _, _ => []
  | _ :: _, [], _ => []
  | ai :: arest, diag :: prest, left =>
    let up := prest.headD 0
    let cost : Nat := if ai == bj then 0 else 1
    let cur := min (min (left + 1) (up + 1)) (diag + cost)
    cur :: levNextRow bj arest prest cur

/-- `levenshteinDistance` of the source: the dynamic program builds the
matrix row by row (row `j` covers the first `j` characters of `b`); the
answer is `matrix[b.length][a.length]`, the last entry of the last row. -/
def levenshteinDistance (a b : List Char) : Nat :=
  if a.length = 0 then b.length
  else if b.length = 0 then a.length
  else
    let row0 := List.range (a.length + 1)
    let final := b.foldl
      (fun (st : Nat × List Nat) bj =>
        let j := st.1 + 1
        (j, j :: levNextRow bj a st.2 j))
      (0, row0)
    final.2.getLastD 0

/-- The two delimiter alphabets of the potential-placeholder regex in
`findSimilarPlaceholder`. -/
def openerChars : List Char := ['⟦', '❰', '⟪', '⟬', '❲', '⟨', '❴']

def closerChars : List Char := ['⟧', '❱', '⟫', '⟭', '❳', '⟩', '❵']

def isOpener (c : Char) : Bool := openerChars.contains c

def isCloser (c : Char) : Bool := closerChars.contains c

/-- The global matches of the potential-placeholder pattern (an opener,
one or more non-closers, a closer) over a text, in order.  Because the
middle class excludes exactly the closers, the greedy match from an
opener succeeds iff the maximal run of non-closers after it is nonempty
and is followed by a closer, and backtracking can never produce a
shorter match; the scan then resumes after the match. -/
def extractTokensGo : Nat → List Char → List (List Char)
  | 0, _ => []
  | _ + 1, [] => []
  | fuel + 1, c :: cs =>
    if isOpener c then
      match cs.takeWhile (fun x => !isCloser x), cs.dropWhile (fun x => !isCloser x) with
      | _ :: _, cl :: rest' =>
        (c :: cs.takeWhile (fun x => !isCloser x) ++ [cl]) :: extractTokensGo fuel rest'
      | _, _ => extractTokensGo fuel cs
    else extractTokensGo fuel cs

/-- Every recursive step of `extractTokensGo` shortens the list, so this
fuel always suffices. -/
def extractTokens (l : List Char) : List (List Char) :=
  extractTokensGo (l.length + 1) l

/-- `findSimilarPlaceholder`: strip zero-width markers from both
arguments, extract every potential placeholder token, and keep the
closest token at Levenshtein distance at most 3. -/
def fspStep (cleanOriginal : List Char) (best : Option (List Char) × Option Nat)
    (placeholder : List Char) : Option (List Char) × Option Nat :=
  if (match best.2 with
      | none => true
      | some d => decide (levenshteinDistance placeholder cleanOriginal < d)) &&
     levenshteinDistance placeholder cleanOriginal ≤ 3
  then (some placeholder, some (levenshteinDistance placeholder cleanOriginal))
  else best

def findSimilarPlaceholder (text original : List Char) : Option (List Char) :=
  ((extractTokens (removeAll text ZWSP)).foldl
    (fspStep (removeAll original ZWSP)) (none, none)).1

/-- JavaScript `Map.get` on the insertion-ordered association list that
models `seenValues` (`Map.has` is `Option.isSome` of this). -/
def assocFind (l : List (List Char × List Char)) (k : List Char) : Option (List Char) :=
  (l.find? (fun p => p.1 = k)).map (fun p => p.2)

/-- The mutable state of `detectSensitiveData`: the `entities` array, the
`index` counter and the `seenValues` map. -/
structure DState where
  entities : List DetectedEntity
  idx : Nat
  seen : List (List Char × List Char)
deriving Repr

/-- The loop body shared by the first six matchers of
`detectSensitiveData`: reuse the placeholder of an already-seen value,
otherwise generate a fresh one and advance the counter. -/
def stepCommon (t : SensitiveDataType) (st : DState) (m : Nat × List Char) : DState :=
  match assocFind st.seen m.2 with
  | some p =>
    { st with entities := st.entities ++ [⟨t, m.2, p, m.1⟩] }
  | none =>
    let p := generatePlaceholder t st.idx
    { entities := st.entities ++ [⟨t, m.2, p, m.1⟩],
      idx := st.idx + 1,
      seen := st.seen ++ [(m.2, p)] }

/-- The account-matcher loop body: identical to `stepCommon` except that
a match whose start index is already claimed by some pushed entity is
skipped. -/
def stepAccount (st : DState) (m : Nat × List Char) : DState :=
  if st.entities.any (fun e => e.index == m.1) then st
  else stepCommon .account st m

/-- A stable ascending-by-`index` insertion sort, modelling the stable
JavaScript `entities.sort((a, b) => a.index - b.index)`. -/
def insertAsc (e : DetectedEntity) : List DetectedEntity → List DetectedEntity
  | [] => [e]
  | y :: ys => if e.index ≤ y.index then e :: y :: ys else y :: insertAsc e ys

def sortAsc : List DetectedEntity → List DetectedEntity
  | [] => []
  | x :: xs => insertAsc x (sortAsc xs)

/-- `detectSensitiveData` of the deterministic-tag document: run the
seven matchers in source order over the full text, threading the
entities array, the counter and the seen-values map, then sort the
entities ascending by index. -/
def detectState (text : List Char) : DState :=
  (execAll accountRE text).foldl stepAccount
    ((execAll addressRE text).foldl (stepCommon .address)
      ((execAll dobRE text).foldl (stepCommon .dob)
        ((execAll ssnRE text).foldl (stepCommon .ssn)
          ((execAll phoneRE text).foldl (stepCommon .phone)
            ((execAll emailRE text).foldl (stepCommon .email)
              ((execAll nameRE text).foldl (stepCommon .name) ⟨[], 0, []⟩))))))

def detectSensitiveData (text : List Char) : List DetectedEntity :=
  sortAsc (detectState text).entities

/-- A stable descending-by-`index` insertion sort, modelling the stable
JavaScript `[...entities].sort((a, b) => b.index - a.index)`. -/
def insertDesc (e : DetectedEntity) : List DetectedEntity → List DetectedEntity
  | [] => [e]
  | y :: ys => if e.index ≥ y.index then e :: y :: ys else y :: insertDesc e ys

def sortDesc : List DetectedEntity → List DetectedEntity
  | [] => []
  | x :: xs => insertDesc x (sortDesc xs)

/-- One splice of `maskText`:
`maskedText.substring(0, index) + placeholder + maskedText.substring(index + value.length)`
(`List.take` and `List.drop` clamp exactly like `substring`). -/
def splice (maskedText : List Char) (e : DetectedEntity) : List Char :=
  maskedText.take e.index ++ e.placeholder ++ maskedText.drop (e.index + e.value.length)

/-- `maskText`: splice every entity into the text, highest offset first. -/
def maskText (text : List Char) (entities : List DetectedEntity) : List Char :=
  (sortDesc entities).foldl splice text

/-- `maskText` as the caller observes the whole call: the spread
`[...entities]` is sorted in place, so the caller's `entities` array is
returned untouched as the second component. -/
def maskTextCall (text : List Char) (entities : List DetectedEntity) :
    List Char × List DetectedEntity :=
  ((sortDesc entities).foldl splice text, entities)

/-- The per-entity loop body of `validatePlaceholdersDetailed`. -/
def validateStep (maskedText : List Char) (result : ValidationResult)
    (entity : DetectedEntity) : ValidationResult :=
  if strIncludes maskedText entity.placeholder then result
  else
    match findSimilarPlaceholder maskedText (removeAll entity.placeholder ZWSP) with
    | some similarPlaceholder =>
      { result with
        similarPlaceholders :=
          result.similarPlaceholders ++ [(removeAll entity.placeholder ZWSP, similarPlaceholder)],
        alteredPlaceholders := result.alteredPlaceholders ++ [entity.placeholder],
        recoverable := true }
    | none =>
      { result with
        missingPlaceholders := result.missingPlaceholders ++ [entity.placeholder],
        recoverable :=
          if result.similarPlaceholders.length = 0 then false else result.recoverable }

/-- `validatePlaceholdersDetailed` of the deterministic-tag document. -/
def validatePlaceholdersDetailed (maskedText : List Char)
    (entities : List DetectedEntity) : ValidationResult :=
  { entities.foldl (validateStep maskedText) ⟨true, [], [], [], true, []⟩ with
    isValid :=
      (entities.foldl (validateStep maskedText)
          ⟨true, [], [], [], true, []⟩).missingPlaceholders.length = 0 &&
      (entities.foldl (validateStep maskedText)
          ⟨true, [], [], [], true, []⟩).alteredPlaceholders.length = 0 &&
      (entities.foldl (validateStep maskedText)
          ⟨true, [], [], [], true, []⟩).invalidFormatPlaceholders.length = 0 }

/-- `validatePlaceholders`. -/
def validatePlaceholders (text : List Char) (entities : List DetectedEntity) : Bool :=
  (validatePlaceholdersDetailed text entities).isValid

/-- The first loop of `restoreText`: exact placeholders back to values. -/
def restoreStep (restoredText : List Char) (entity : DetectedEntity) : List Char :=
  if strIncludes restoredText entity.placeholder then
    replaceFirst restoredText entity.placeholder entity.value
  else restoredText

/-- The second loop of `restoreText`: apply each suggested fuzzy fix. -/
def restoreFix (entities : List DetectedEntity) (restoredText : List Char)
    (fix : List Char × List Char) : List Char :=
  match entities.find? (fun e => strIncludes e.placeholder fix.1) with
  | some entity => replaceFirst restoredText fix.2 entity.value
  | none => restoredText

/-- `restoreText` of the deterministic-tag document. -/
def restoreText (maskedText : List Char) (entities : List DetectedEntity) : List Char :=
  if (validatePlaceholdersDetailed maskedText entities).recoverable &&
     0 < (validatePlaceholdersDetailed maskedText entities).similarPlaceholders.length then
    (validatePlaceholdersDetailed maskedText entities).similarPlaceholders.foldl
      (restoreFix entities) (entities.foldl restoreStep maskedText)
  else entities.foldl restoreStep maskedText

end TP1

namespace TP2

/-- `SensitiveDataType` of the realistic-substitute document (adds
`custom`). -/
inductive SensitiveDataType where
  | name | email | phone | address | ssn | dob | account | custom
deriving DecidableEq, Repr

open SensitiveDataType

/-- Upper-cased kind name (`type.toUpperCase()`); the constructor names
are already the lower-cased forms used by the `switch`. -/
def typeUpper : SensitiveDataType → List Char
  | name => "NAME".data | email => "EMAIL".data | phone => "PHONE".data
  | address => "ADDRESS".data | ssn => "SSN".data | dob => "DOB".data
  | account => "ACCOUNT".data | custom => "CUSTOM".data

/-- `DetectedEntity` of the realistic-substitute document. -/
structure DetectedEntity where
  type : SensitiveDataType
  value : List Char
  substitute : List Char
  index : Nat
deriving DecidableEq, Repr

/-- `ValidationResult` of the realistic-substitute document. -/
structure ValidationResult where
  isValid : Bool
  missingPlaceholders : List (List Char)
  alteredPlaceholders : List (List Char)
  invalidFormatPlaceholders : List (List Char)
  recoverable : Bool
  suggestedFixes : List (List Char × List Char)
  duplicateSubstitutes : List (List Char)
  inconsistentMappings : List (List Char × List (List Char))
deriving DecidableEq, Repr

/- random-data.ts: the curated pools. -/

def randomNames : List (List Char) :=
  ["Michael Carter".data, "Emma Thompson".data, "David Wilson".data, "Sarah Anderson".data,
   "James Taylor".data, "Lisa Morgan".data, "Robert Davis".data, "Jennifer White".data,
   "William Brown".data, "Emily Johnson".data, "John Smith".data, "Maria Garcia".data,
   "Daniel Lee".data, "Susan Miller".data, "Richard Moore".data]

def randomStreets : List (List Char) :=
  ["123 Pine Street".data, "456 Maple Avenue".data, "789 Oak Road".data, "321 Cedar Lane".data,
   "654 Elm Drive".data, "987 Birch Court".data, "147 Willow Way".data, "258 Cherry Street".data,
   "369 Spruce Avenue".data, "741 Ash Road".data]

def randomEmails : List (List Char) :=
  ["user1@email.com".data, "contact2@mail.net".data, "person3@inbox.com".data,
   "member4@webmail.com".data, "account5@mail.org".data, "info6@email.net".data,
   "user7@mail.com".data, "contact8@inbox.net".data, "person9@email.org".data,
   "member10@mail.com".data]

def randomPhones : List (List Char) :=
  ["(555) 123-4567".data, "(555) 234-5678".data, "(555) 345-6789".data, "(555) 456-7890".data,
   "(555) 567-8901".data, "(555) 678-9012".data, "(555) 789-0123".data, "(555) 890-1234".data]

/-- The pool selected by the `switch (type.toLowerCase())`; `none` is the
`default` branch. -/
def poolOf : SensitiveDataType → Option (List (List Char))
  | name => some randomNames
  | address => some randomStreets
  | email => some randomEmails
  | phone => some randomPhones
  | _ => none

/-- The numbered variant `` `${baseValue} (${counter})` ``. -/
def numberedVariant (base : List Char) (counter : Nat) : List Char :=
  base ++ " (".data ++ natDigits counter ++ ")".data

/-- The `while (usedValues.has(newValue))` search for a free numbered
variant.  At most `usedValues.length` variants can be taken, so the fuel
chosen by `getRandomSubstitute` always finds the answer. -/
def findFreeVariant (base : List Char) (usedValues : List (List Char)) :
    Nat → Nat → List Char
  | 0, counter => numberedVariant base counter
  | fuel + 1, counter =>
    let newValue := numberedVariant base counter
    if usedValues.contains newValue then findFreeVariant base usedValues fuel (counter + 1)
    else newValue

/-- `getRandomSubstitute` of random-data.ts.  The two calls to
`Math.floor(Math.random() * n)` (an arbitrary index below `n`) are
modelled by reducing the oracle `rng` modulo `n`. -/
def getRandomSubstitute (t : SensitiveDataType) (usedValues : List (List Char))
    (rng : Nat) : List Char :=
  match poolOf t with
  | none => "[REDACTED-".data ++ typeUpper t ++ "]".data
  | some pool =>
    let availableValues := pool.filter (fun v => !usedValues.contains v)
    if availableValues.isEmpty then
      let baseValue := pool.getD (rng % pool.length) []
      findFreeVariant baseValue usedValues (usedValues.length + 1) 1
    else availableValues.getD (rng % availableValues.length) []

/-- One session mapping record. -/
structure SubstitutionMapping where
  original : List Char
  substitute : List Char
  type : SensitiveDataType
  approved : Bool
deriving DecidableEq, Repr

/-- The session map `currentSessionMappings`, insertion-ordered. -/
abbrev Mappings : Type := List (List Char × SubstitutionMapping)

/-- JavaScript `Map.get`. -/
def mapGet (m : Mappings) (k : List Char) : Option SubstitutionMapping :=
  ((m : List _).find? (fun p => p.1 = k)).map (fun p => p.2)

/-- JavaScript `Map.set`: overwrite in place if the key exists, append
otherwise. -/
def mapSet (m : Mappings) (k : List Char) (v : SubstitutionMapping) : Mappings :=
  match (m : List _) with
  | [] => ([(k, v)] : List _)
  | p :: rest =>
    if p.1 = k then ((k, v) :: rest : List _)
    else (p :: (mapSet rest k v : List _) : List _)

/-- `clearSessionMappings`. -/
def clearSessionMappings : Mappings := ([] : List _)

/-- The usedSubstitutes map threaded through one detection call. -/
abbrev UsedMap : Type := List (List Char × List Char)

def usedGet (m : UsedMap) (k : List Char) : Option (List Char) :=
  ((m : List _).find? (fun p => p.1 = k)).map (fun p => p.2)

def usedSet (m : UsedMap) (k v : List Char) : UsedMap :=
  match (m : List _) with
  | [] => ([(k, v)] : List _)
  | p :: rest =>
    if p.1 = k then ((k, v) :: rest : List _)
    else (p :: (usedSet rest k v : List _) : List _)

/-- `Set(usedSubstitutes.values())`. -/
def usedValuesOf (m : UsedMap) : List (List Char) :=
  (m : List _).map (fun p => p.2)

/-- `generateSubstitute`: return the session substitute for an
already-seen value, otherwise draw a fresh substitute avoiding the
values of `usedSubstitutes`, record it in the session map and in
`usedSubstitutes`.  Returns (substitute, session map after, used map
after). -/
def generateSubstitute (session : Mappings) (t : SensitiveDataType)
    (value : List Char) (usedSubstitutes : UsedMap) (rng : Nat) :
    List Char × Mappings × UsedMap :=
  match mapGet session value with
  | some existingMapping => (existingMapping.substitute, session, usedSubstitutes)
  | none =>
    let usedValues := usedValuesOf usedSubstitutes
    let substitute := getRandomSubstitute t usedValues rng
    (substitute,
     mapSet session value ⟨value, substitute, t, false⟩,
     usedSet usedSubstitutes value substitute)

/-- The per-entity loop body of the realistic-substitute
`validatePlaceholdersDetailed` (an absent substitute is recorded missing
and makes the result unrecoverable; nothing else is ever recorded). -/
def validateStep (maskedText : List Char) (result : ValidationResult)
    (entity : DetectedEntity) : ValidationResult :=
  if strIncludes maskedText entity.substitute then result
  else
    { result with
      missingPlaceholders := result.missingPlaceholders ++ [entity.substitute],
      recoverable := false }

/-- `validatePlaceholdersDetailed` of the realistic-substitute document. -/
def validatePlaceholdersDetailed (maskedText : List Char)
    (entities : List DetectedEntity) : ValidationResult :=
  { entities.foldl (validateStep maskedText) ⟨true, [], [], [], true, [], [], []⟩ with
    isValid :=
      (entities.foldl (validateStep maskedText)
          ⟨true, [], [], [], true, [], [], []⟩).missingPlaceholders.length = 0 }

/-- `getMappings()`: the mapping records in insertion order. -/
def getMappings (m : Mappings) : List SubstitutionMapping :=
  (m : List _).map (fun p => p.2)

/-- `updateMapping(original, newSubstitute)`: only acts when the session
map already holds the original. -/
def updateMapping (m : Mappings) (original newSubstitute : List Char) : Mappings :=
  match mapGet m original with
  | some mapping =>
    mapSet m original { mapping with substitute := newSubstitute, approved := true }
  | none => m

/-- `approveMapping(original)`: only acts when the session map already
holds the original. -/
def approveMapping (m : Mappings) (original : List Char) : Mappings :=
  match mapGet m original with
  | some mapping => mapSet m original { mapping with approved := true }
  | none => m

end TP2

/- ----------------------------------------------------------------- -/
/- Fold lemmas about the validators. -/

namespace TP1

/-- One validator step never touches `invalidFormatPlaceholders`. -/
theorem validateStep_invalid (text : List Char) (r : ValidationResult)
    (e : DetectedEntity) :
    (validateStep text r e).invalidFormatPlaceholders = r.invalidFormatPlaceholders := by
  unfold validateStep
  repeat' split
  all_goals rfl

/-- One validator step only appends to the three result lists. -/
theorem validateStep_mono (text : List Char) (r : ValidationResult)
    (e : DetectedEntity) :
    (∀ x ∈ r.alteredPlaceholders, x ∈ (validateStep text r e).alteredPlaceholders) ∧
    (∀ x ∈ r.missingPlaceholders, x ∈ (validateStep text r e).missingPlaceholders) ∧
    (∀ x ∈ r.similarPlaceholders, x ∈ (validateStep text r e).similarPlaceholders) := by
  unfold validateStep
  refine ⟨?_, ?_, ?_⟩ <;>
  · intro x hx
    repeat' split
    all_goals simp_all [List.mem_append]

/-- The deterministic-tag validator loop never touches
`invalidFormatPlaceholders`. -/
theorem foldl_validateStep_invalid (text : List Char) (es : List DetectedEntity)
    (r : ValidationResult) :
    (es.foldl (validateStep text) r).invalidFormatPlaceholders =
      r.invalidFormatPlaceholders := by
  induction es generalizing r with
  | nil => rfl
  | cons e es ih => rw [List.foldl_cons, ih, validateStep_invalid]

/-- Membership in the result lists survives the rest of the loop. -/
theorem foldl_validateStep_mono (text : List Char) (es : List DetectedEntity)
    (r : ValidationResult) :
    (∀ x ∈ r.alteredPlaceholders, x ∈ (es.foldl (validateStep text) r).alteredPlaceholders) ∧
    (∀ x ∈ r.missingPlaceholders, x ∈ (es.foldl (validateStep text) r).missingPlaceholders) ∧
    (∀ x ∈ r.similarPlaceholders, x ∈ (es.foldl (validateStep text) r).similarPlaceholders) := by
  induction es generalizing r with
  | nil => exact ⟨fun _ h => h, fun _ h => h, fun _ h => h⟩
  | cons e es ih =>
    refine ⟨fun x hx => ?_, fun x hx => ?_, fun x hx => ?_⟩
    · exact (ih _).1 _ ((validateStep_mono text r e).1 _ hx)
    · exact (ih _).2.1 _ ((validateStep_mono text r e).2.1 _ hx)
    · exact (ih _).2.2 _ ((validateStep_mono text r e).2.2 _ hx)

end TP1

namespace TP2

/-- One realistic-substitute validator step never touches
`alteredPlaceholders` or `invalidFormatPlaceholders`. -/
theorem validateStep_other_fields (text : List Char) (r : ValidationResult)
    (e : DetectedEntity) :
    (validateStep text r e).alteredPlaceholders = r.alteredPlaceholders ∧
    (validateStep text r e).invalidFormatPlaceholders = r.invalidFormatPlaceholders := by
  unfold validateStep
  split <;> exact ⟨rfl, rfl⟩

/-- The realistic-substitute validator loop never touches
`alteredPlaceholders` or `invalidFormatPlaceholders`. -/
theorem foldl_validateStep_other_fields (text : List Char) (es : List DetectedEntity)
    (r : ValidationResult) :
    (es.foldl (validateStep text) r).alteredPlaceholders = r.alteredPlaceholders ∧
    (es.foldl (validateStep text) r).invalidFormatPlaceholders =
      r.invalidFormatPlaceholders := by
  induction es generalizing r with
  | nil => exact ⟨rfl, rfl⟩
  | cons e es ih =>
    rw [List.foldl_cons]
    refine ⟨?_, ?_⟩
    · rw [(ih _).1, (validateStep_other_fields text r e).1]
    · rw [(ih _).2, (validateStep_other_fields text r e).2]

end TP2

/-- C4: for every candidate text and entity list, the `ValidationResult`
returned by `validatePlaceholdersDetailed` has `isValid = true` exactly
when `missingPlaceholders`, `alteredPlaceholders` and
`invalidFormatPlaceholders` are all empty — both for the
deterministic-tag validator and for the realistic-substitute variant
(whose altered and invalid-format lists are always empty, so its
missing-only check coincides with the three-way conjunction). -/
theorem C4_isValid_iff_all_empty (text : List Char) (es1 : List TP1.DetectedEntity)
    (es2 : List TP2.DetectedEntity) :
    ((TP1.validatePlaceholdersDetailed text es1).isValid = true ↔
      (TP1.validatePlaceholdersDetailed text es1).missingPlaceholders = [] ∧
      (TP1.validatePlaceholdersDetailed text es1).alteredPlaceholders = [] ∧
      (TP1.validatePlaceholdersDetailed text es1).invalidFormatPlaceholders = []) ∧
    ((TP2.validatePlaceholdersDetailed text es2).isValid = true ↔
      (TP2.validatePlaceholdersDetailed text es2).missingPlaceholders = [] ∧
      (TP2.validatePlaceholdersDetailed text es2).alteredPlaceholders = [] ∧
      (TP2.validatePlaceholdersDetailed text es2).invalidFormatPlaceholders = []) := by
  constructor
  · unfold TP1.validatePlaceholdersDetailed
    simp [List.length_eq_zero, and_assoc]
  · have h2 := TP2.foldl_validateStep_other_fields text es2 ⟨true, [], [], [], true, [], [], []⟩
    unfold TP2.validatePlaceholdersDetailed
    simp only [List.length_eq_zero]
    constructor
    · intro h
      exact ⟨by simpa using h, h2.1, h2.2⟩
    · intro h
      simpa using h.1

/-- C3: the deterministic-tag validator's `recoverable` flag is `false`
exactly when some substitute is missing and no entity in the same pass
found a fuzzy near-match (one recorded near-match makes the whole result
recoverable). -/
theorem C3_recoverable_iff (text : List Char) (es : List TP1.DetectedEntity) :
    (TP1.validatePlaceholdersDetailed text es).recoverable = false ↔
      (TP1.validatePlaceholdersDetailed text es).missingPlaceholders ≠ [] ∧
      (TP1.validatePlaceholdersDetailed text es).similarPlaceholders = [] := by
  suffices h : ∀ (r : TP1.ValidationResult),
      (r.recoverable = false ↔ r.missingPlaceholders ≠ [] ∧ r.similarPlaceholders = []) →
      ((es.foldl (TP1.validateStep text) r).recoverable = false ↔
        (es.foldl (TP1.validateStep text) r).missingPlaceholders ≠ [] ∧
        (es.foldl (TP1.validateStep text) r).similarPlaceholders = []) by
    unfold TP1.validatePlaceholdersDetailed
    exact h ⟨true, [], [], [], true, []⟩ (by simp)
  induction es with
  | nil => exact fun r h => h
  | cons e es ih =>
    intro r h
    rw [List.foldl_cons]
    refine ih _ ?_
    unfold TP1.validateStep
    repeat' split
    all_goals simp_all [List.length_eq_zero]

/-- C5 counterexample: the text `⟦x⟧` consists of one well-formed
placeholder-shaped token corresponding to no entity, yet the
deterministic-tag validator records nothing in
`invalidFormatPlaceholders`. -/
theorem C5_counterexample :
    TP1.extractTokens (removeAll "⟦x⟧".data ZWSP) = ["⟦x⟧".data] ∧
    (TP1.validatePlaceholdersDetailed "⟦x⟧".data
        ([] : List TP1.DetectedEntity)).invalidFormatPlaceholders = [] := by
  constructor <;> decide

/-- C5 as amended: the text-processor validator performs no
invalid-format scan at all — `invalidFormatPlaceholders` is the empty
list for every candidate text and entity list (the scan exists only in
the separate string-similarity variant of the processor). -/
theorem C5_invalid_format_never_recorded (text : List Char)
    (es : List TP1.DetectedEntity) :
    (TP1.validatePlaceholdersDetailed text es).invalidFormatPlaceholders = [] := by
  unfold TP1.validatePlaceholdersDetailed
  exact TP1.foldl_validateStep_invalid text es ⟨true, [], [], [], true, []⟩

/-- C9: `maskText` does not mutate its `entities` argument — the
in-place sort targets the spread copy `[...entities]`, so the caller's
array after the call is the original list, element for element. -/
theorem C9_maskText_pure (text : List Char) (es : List TP1.DetectedEntity) :
    TP1.maskTextCall text es = (TP1.maskText text es, es) ∧
    (TP1.maskTextCall text es).2 = es :=
  ⟨rfl, rfl⟩

/-- C10: `updateMapping` and `approveMapping` on an original value with
no session-map entry are no-ops: the map is returned unchanged and
`getMappings` yields the same mappings. -/
theorem C10_update_approve_noop (m : TP2.Mappings) (o ns : List Char)
    (h : TP2.mapGet m o = none) :
    TP2.updateMapping m o ns = m ∧ TP2.approveMapping m o = m ∧
    TP2.getMappings (TP2.updateMapping m o ns) = TP2.getMappings m ∧
    TP2.getMappings (TP2.approveMapping m o) = TP2.getMappings m := by
  have h1 : TP2.updateMapping m o ns = m := by
    unfold TP2.updateMapping
    rw [h]
  have h2 : TP2.approveMapping m o = m := by
    unfold TP2.approveMapping
    rw [h]
  exact ⟨h1, h2, by rw [h1], by rw [h2]⟩

/-- C10 witness: the empty session map has no entry for `"x"`, and both
operations leave it unchanged. -/
theorem C10_update_approve_noop_witness :
    TP2.mapGet TP2.clearSessionMappings "x".data = none ∧
    (TP2.updateMapping TP2.clearSessionMappings "x".data "y".data =
        TP2.clearSessionMappings ∧
      TP2.approveMapping TP2.clearSessionMappings "x".data = TP2.clearSessionMappings ∧
      TP2.getMappings (TP2.updateMapping TP2.clearSessionMappings "x".data "y".data) =
        TP2.getMappings TP2.clearSessionMappings ∧
      TP2.getMappings (TP2.approveMapping TP2.clearSessionMappings "x".data) =
        TP2.getMappings TP2.clearSessionMappings) :=
  ⟨rfl, C10_update_approve_noop TP2.clearSessionMappings "x".data "y".data rfl⟩

/- ----------------------------------------------------------------- -/
/- C2: characterization of the fuzzy matcher and of the loop buckets. -/

/-- Stripping a character twice is the same as stripping it once. -/
theorem removeAll_idem (l : List Char) (c : Char) :
    removeAll (removeAll l c) c = removeAll l c := by
  unfold removeAll
  rw [List.filter_filter]
  simp

namespace TP1

/-- The best-match state of `findSimilarPlaceholder` never forgets a
found match. -/
theorem fspStep_isSome (c : List Char) (s : Option (List Char) × Option Nat)
    (tok : List Char) (h : s.1.isSome) : (fspStep c s tok).1.isSome := by
  unfold fspStep
  split
  · rfl
  · exact h

theorem fspFold_isSome (c : List Char) (toks : List (List Char))
    (s : Option (List Char) × Option Nat) (h : s.1.isSome) :
    ((toks.foldl (fspStep c) s).1).isSome := by
  induction toks generalizing s with
  | nil => exact h
  | cons tok toks ih => exact ih _ (fspStep_isSome c s tok h)

/-- `findSimilarPlaceholder` comes back empty exactly when no extracted
token is within Levenshtein distance 3 of the cleaned original. -/
theorem findSimilarPlaceholder_eq_none_iff (text original : List Char) :
    findSimilarPlaceholder text original = none ↔
      ∀ tok ∈ extractTokens (removeAll text ZWSP),
        ¬ levenshteinDistance tok (removeAll original ZWSP) ≤ 3 := by
  unfold findSimilarPlaceholder
  suffices h : ∀ toks : List (List Char),
      ((toks.foldl (fspStep (removeAll original ZWSP)) (none, none)).1 = none ↔
        ∀ tok ∈ toks, ¬ levenshteinDistance tok (removeAll original ZWSP) ≤ 3) from
    h _
  intro toks
  induction toks with
  | nil => simp
  | cons tok toks ih =>
    rw [List.foldl_cons]
    by_cases hd : levenshteinDistance tok (removeAll original ZWSP) ≤ 3
    · have hstep : (fspStep (removeAll original ZWSP) (none, none) tok).1.isSome := by
        unfold fspStep
        simp [hd]
      have hsome := fspFold_isSome (removeAll original ZWSP) toks _ hstep
      constructor
      · intro h
        rw [h] at hsome
        exact absurd hsome (by simp)
      · intro h
        exact absurd hd (h tok (List.mem_cons_self tok toks))
    · have hstep : fspStep (removeAll original ZWSP) (none, none) tok = (none, none) := by
        unfold fspStep
        simp [hd]
      rw [hstep, ih]
      simp only [List.forall_mem_cons]
      exact ⟨fun h => ⟨hd, h⟩, fun h => h.2⟩

/-- Where an absent entity lands when the fuzzy matcher succeeds. -/
theorem foldl_validateStep_altered_of (text : List Char) (es : List DetectedEntity)
    (r : ValidationResult) (e : DetectedEntity) (s : List Char) (he : e ∈ es)
    (habs : strIncludes text e.placeholder = false)
    (hsim : findSimilarPlaceholder text (removeAll e.placeholder ZWSP) = some s) :
    e.placeholder ∈ (es.foldl (validateStep text) r).alteredPlaceholders ∧
    (removeAll e.placeholder ZWSP, s) ∈
      (es.foldl (validateStep text) r).similarPlaceholders := by
  induction es generalizing r with
  | nil => cases he
  | cons a es ih =>
    rw [List.foldl_cons]
    rcases List.mem_cons.1 he with rfl | hmem
    · have hstep : (validateStep text r e).alteredPlaceholders =
          r.alteredPlaceholders ++ [e.placeholder] ∧
          (validateStep text r e).similarPlaceholders =
            r.similarPlaceholders ++ [(removeAll e.placeholder ZWSP, s)] := by
        unfold validateStep
        rw [habs]
        simp only [Bool.false_eq_true, if_false]
        rw [hsim]
        exact ⟨rfl, rfl⟩
      refine ⟨(foldl_validateStep_mono text es _).1 _ ?_,
              (foldl_validateStep_mono text es _).2.2 _ ?_⟩
      · rw [hstep.1]; simp
      · rw [hstep.2]; simp
    · exact ih _ hmem

/-- Where an absent entity lands when the fuzzy matcher fails. -/
theorem foldl_validateStep_missing_of (text : List Char) (es : List DetectedEntity)
    (r : ValidationResult) (e : DetectedEntity) (he : e ∈ es)
    (habs : strIncludes text e.placeholder = false)
    (hsim : findSimilarPlaceholder text (removeAll e.placeholder ZWSP) = none) :
    e.placeholder ∈ (es.foldl (validateStep text) r).missingPlaceholders := by
  induction es generalizing r with
  | nil => cases he
  | cons a es ih =>
    rw [List.foldl_cons]
    rcases List.mem_cons.1 he with rfl | hmem
    · have hstep : (validateStep text r e).missingPlaceholders =
          r.missingPlaceholders ++ [e.placeholder] := by
        unfold validateStep
        rw [habs]
        simp only [Bool.false_eq_true, if_false]
        rw [hsim]
      refine (foldl_validateStep_mono text es _).2.1 _ ?_
      rw [hstep]; simp
    · exact ih _ hmem

end TP1

/-- C2: in `validatePlaceholdersDetailed`, an entity whose exact
placeholder is absent from the candidate text is recorded as altered —
with a suggested fix — whenever some placeholder-shaped token of the
text is within Levenshtein distance 3 of the expected (marker-stripped)
substitute, and as missing whenever no such token exists. -/
theorem C2_fuzzy_recovery_bound (text : List Char) (es : List TP1.DetectedEntity)
    (e : TP1.DetectedEntity) (he : e ∈ es)
    (habs : strIncludes text e.placeholder = false) :
    ((∃ tok ∈ TP1.extractTokens (removeAll text ZWSP),
        TP1.levenshteinDistance tok (removeAll e.placeholder ZWSP) ≤ 3) →
      e.placeholder ∈ (TP1.validatePlaceholdersDetailed text es).alteredPlaceholders ∧
      ∃ s, (removeAll e.placeholder ZWSP, s) ∈
          (TP1.validatePlaceholdersDetailed text es).similarPlaceholders) ∧
    ((∀ tok ∈ TP1.extractTokens (removeAll text ZWSP),
        ¬ TP1.levenshteinDistance tok (removeAll e.placeholder ZWSP) ≤ 3) →
      e.placeholder ∈ (TP1.validatePlaceholdersDetailed text es).missingPlaceholders) := by
  have hclean :
      ∀ tok, TP1.levenshteinDistance tok (removeAll (removeAll e.placeholder ZWSP) ZWSP) =
        TP1.levenshteinDistance tok (removeAll e.placeholder ZWSP) := by
    intro tok
    rw [removeAll_idem]
  constructor
  · intro ⟨tok, htok, hdist⟩
    have hnone :
        ¬ TP1.findSimilarPlaceholder text (removeAll e.placeholder ZWSP) = none := by
      rw [TP1.findSimilarPlaceholder_eq_none_iff]
      intro hall
      exact (hclean tok ▸ hall tok htok) hdist
    obtain ⟨s, hs⟩ := Option.ne_none_iff_exists'.1 hnone
    have := TP1.foldl_validateStep_altered_of text es ⟨true, [], [], [], true, []⟩ e s he habs hs
    exact ⟨this.1, s, this.2⟩
  · intro hall
    have hnone : TP1.findSimilarPlaceholder text (removeAll e.placeholder ZWSP) = none := by
      rw [TP1.findSimilarPlaceholder_eq_none_iff]
      intro tok htok
      rw [hclean tok]
      exact hall tok htok
    exact TP1.foldl_validateStep_missing_of text es ⟨true, [], [], [], true, []⟩ e he habs hnone

/-- C2 witness: a candidate text that carries the marker-stripped form
of the entity's placeholder (distance 0) is recorded as altered with a
suggested fix. -/
theorem C2_fuzzy_recovery_bound_witness :
    (TP1.generatePlaceholder TP1.SensitiveDataType.name 0) ∈
      (TP1.validatePlaceholdersDetailed "⟦UID:NAME:000000⟧".data
        [⟨TP1.SensitiveDataType.name, "Bob".data,
          TP1.generatePlaceholder TP1.SensitiveDataType.name 0, 0⟩]).alteredPlaceholders ∧
    ∃ s, (removeAll (TP1.generatePlaceholder TP1.SensitiveDataType.name 0) ZWSP, s) ∈
      (TP1.validatePlaceholdersDetailed "⟦UID:NAME:000000⟧".data
        [⟨TP1.SensitiveDataType.name, "Bob".data,
          TP1.generatePlaceholder TP1.SensitiveDataType.name 0, 0⟩]).similarPlaceholders :=
  (C2_fuzzy_recovery_bound "⟦UID:NAME:000000⟧".data
      [⟨TP1.SensitiveDataType.name, "Bob".data,
        TP1.generatePlaceholder TP1.SensitiveDataType.name 0, 0⟩]
      ⟨TP1.SensitiveDataType.name, "Bob".data,
        TP1.generatePlaceholder TP1.SensitiveDataType.name 0, 0⟩
      (by decide) (by decide)).1
    ⟨"⟦UID:NAME:000000⟧".data, by decide, by decide⟩

/- ----------------------------------------------------------------- -/
/- C8: the ASCII fallback format. -/

namespace TP1

/-- A text without opener characters yields no potential-placeholder
tokens. -/
theorem extractTokensGo_eq_nil (fuel : Nat) (l : List Char)
    (h : ∀ c ∈ l, isOpener c = false) : extractTokensGo fuel l = [] := by
  induction fuel generalizing l with
  | zero => rfl
  | succ fuel ih =>
    cases l with
    | nil => rfl
    | cons c cs =>
      unfold extractTokensGo
      rw [h c (List.mem_cons_self c cs)]
      simp only [Bool.false_eq_true, if_false]
      exact ih cs (fun x hx => h x (List.mem_cons_of_mem c hx))

theorem extractTokens_eq_nil (l : List Char)
    (h : ∀ c ∈ l, isOpener c = false) : extractTokens l = [] :=
  extractTokensGo_eq_nil _ l h

/-- On a text without opener characters the fuzzy matcher always comes
back empty. -/
theorem findSimilarPlaceholder_eq_none (text original : List Char)
    (h : ∀ c ∈ text, isOpener c = false) :
    findSimilarPlaceholder text original = none := by
  have htok : extractTokens (removeAll text ZWSP) = [] := by
    apply extractTokens_eq_nil
    intro c hc
    have hmem : c ∈ text ∧ ¬ c = ZWSP := by simpa [removeAll] using hc
    exact h c hmem.1
  unfold findSimilarPlaceholder
  rw [htok]
  rfl

/-- If no entity's placeholder occurs exactly, the first restore loop
leaves the text unchanged. -/
theorem foldl_restoreStep_id (text : List Char) (es : List DetectedEntity)
    (habs : ∀ e ∈ es, strIncludes text e.placeholder = false) :
    es.foldl restoreStep text = text := by
  induction es with
  | nil => rfl
  | cons e es ih =>
    rw [List.foldl_cons]
    have hstep : restoreStep text e = text := by
      unfold restoreStep
      rw [habs e (List.mem_cons_self e es)]
      simp
    rw [hstep]
    exact ih (fun x hx => habs x (List.mem_cons_of_mem e hx))

/-- If the fuzzy matcher fails for every entity, the validator records
no similar placeholders. -/
theorem foldl_validateStep_similar_nil (text : List Char) (es : List DetectedEntity)
    (r : ValidationResult)
    (hsim : ∀ e ∈ es, findSimilarPlaceholder text (removeAll e.placeholder ZWSP) = none) :
    (es.foldl (validateStep text) r).similarPlaceholders = r.similarPlaceholders := by
  induction es generalizing r with
  | nil => rfl
  | cons e es ih =>
    rw [List.foldl_cons, ih _ (fun x hx => hsim x (List.mem_cons_of_mem e hx))]
    unfold validateStep
    split
    · rfl
    · rw [hsim e (List.mem_cons_self e es)]

end TP1

/-- C8 counterexample: a masked text holding the entity's substitute
only in the simplified ASCII fallback form `<<UID:NAME:000000>>` does
not validate (the entity is reported missing, not recovered) and does
not restore the original value. -/
theorem C8_counterexample :
    (TP1.validatePlaceholdersDetailed "<<UID:NAME:000000>>".data
      [⟨TP1.SensitiveDataType.name, "Bob".data,
        TP1.generatePlaceholder TP1.SensitiveDataType.name 0, 0⟩]).isValid = false ∧
    (TP1.validatePlaceholdersDetailed "<<UID:NAME:000000>>".data
      [⟨TP1.SensitiveDataType.name, "Bob".data,
        TP1.generatePlaceholder TP1.SensitiveDataType.name 0, 0⟩]).missingPlaceholders =
      [TP1.generatePlaceholder TP1.SensitiveDataType.name 0] ∧
    TP1.restoreText "<<UID:NAME:000000>>".data
      [⟨TP1.SensitiveDataType.name, "Bob".data,
        TP1.generatePlaceholder TP1.SensitiveDataType.name 0, 0⟩] =
      "<<UID:NAME:000000>>".data ∧
    strIncludes (TP1.restoreText "<<UID:NAME:000000>>".data
      [⟨TP1.SensitiveDataType.name, "Bob".data,
        TP1.generatePlaceholder TP1.SensitiveDataType.name 0, 0⟩]) "Bob".data = false := by
  refine ⟨by decide, by decide, by decide, by decide⟩

/-- C8 as amended: the validator and restorer do not support the ASCII
fallback `<<UID:KIND:000000>>` — in any candidate text free of the
Unicode opener delimiters (as an ASCII-only text is) in which no exact
placeholder occurs, every entity is recorded as missing and `restoreText`
returns the text unchanged. -/
theorem C8_ascii_not_supported (text : List Char) (es : List TP1.DetectedEntity)
    (hop : ∀ c ∈ text, TP1.isOpener c = false)
    (habs : ∀ e ∈ es, strIncludes text e.placeholder = false) :
    TP1.restoreText text es = text ∧
    ∀ e ∈ es, e.placeholder ∈
      (TP1.validatePlaceholdersDetailed text es).missingPlaceholders := by
  have hsim : ∀ e ∈ es,
      TP1.findSimilarPlaceholder text (removeAll e.placeholder ZWSP) = none :=
    fun e _ => TP1.findSimilarPlaceholder_eq_none text _ hop
  constructor
  · unfold TP1.restoreText
    have hsimnil : (TP1.validatePlaceholdersDetailed text es).similarPlaceholders = [] := by
      unfold TP1.validatePlaceholdersDetailed
      exact TP1.foldl_validateStep_similar_nil text es ⟨true, [], [], [], true, []⟩ hsim
    rw [hsimnil]
    simp only [List.length_nil]
    rw [if_neg (by simp)]
    exact TP1.foldl_restoreStep_id text es habs
  · intro e he
    exact TP1.foldl_validateStep_missing_of text es ⟨true, [], [], [], true, []⟩ e he
      (habs e he) (hsim e he)

/-- C8 witness: the amended theorem applied to the concrete ASCII-only
masked text. -/
theorem C8_ascii_not_supported_witness :
    TP1.restoreText "<<UID:NAME:000000>>".data
      [⟨TP1.SensitiveDataType.name, "Bob".data,
        TP1.generatePlaceholder TP1.SensitiveDataType.name 0, 0⟩] =
      "<<UID:NAME:000000>>".data ∧
    (TP1.generatePlaceholder TP1.SensitiveDataType.name 0) ∈
      (TP1.validatePlaceholdersDetailed "<<UID:NAME:000000>>".data
        [⟨TP1.SensitiveDataType.name, "Bob".data,
          TP1.generatePlaceholder TP1.SensitiveDataType.name 0, 0⟩]).missingPlaceholders :=
  have h := C8_ascii_not_supported "<<UID:NAME:000000>>".data
    [⟨TP1.SensitiveDataType.name, "Bob".data,
      TP1.generatePlaceholder TP1.SensitiveDataType.name 0, 0⟩]
    (by decide) (by decide)
  ⟨h.1, h.2 ⟨TP1.SensitiveDataType.name, "Bob".data,
      TP1.generatePlaceholder TP1.SensitiveDataType.name 0, 0⟩ (by decide)⟩

/- ----------------------------------------------------------------- -/
/- C6/C7: injectivity of the deterministic tags and the seen-values
   invariant of the detector. -/

theorem digitChar_toNat (d : Nat) (h : d < 10) : (digitChar d).toNat = 48 + d := by
  interval_cases d <;> rfl

theorem ofDigits_append_singleton (xs : List Char) (c : Char) :
    ofDigits (xs ++ [c]) = ofDigits xs * 10 + (c.toNat - 48) := by
  unfold ofDigits
  rw [List.foldl_append]
  rfl

theorem ofDigits_natDigitsGo (fuel n : Nat) (h : n ≤ fuel) :
    ofDigits (natDigitsGo fuel n) = n := by
  induction fuel generalizing n with
  | zero =>
    have hn : n = 0 := Nat.le_zero.1 h
    subst hn
    rfl
  | succ fuel ih =>
    unfold natDigitsGo
    by_cases hn : n < 10
    · rw [if_pos hn]
      unfold ofDigits
      simp [digitChar_toNat n hn]
    · rw [if_neg hn]
      have hdiv : n / 10 < n :=
        Nat.div_lt_self (by omega) (by decide)
      rw [ofDigits_append_singleton, ih (n / 10) (by omega),
        digitChar_toNat (n % 10) (Nat.mod_lt n (by decide))]
      omega

theorem ofDigits_natDigits (n : Nat) : ofDigits (natDigits n) = n :=
  ofDigits_natDigitsGo n n (Nat.le_refl n)

theorem ofDigits_replicate_zero (k : Nat) (l : List Char) :
    ofDigits (List.replicate k '0' ++ l) = ofDigits l := by
  induction k with
  | zero => rfl
  | succ k ih =>
    rw [List.replicate_succ, List.cons_append]
    exact ih

theorem ofDigits_padStart6 (l : List Char) : ofDigits (padStart6 l) = ofDigits l :=
  ofDigits_replicate_zero _ l

/-- Distinct sequence numbers give distinct padded digit strings. -/
theorem padStart6_natDigits_inj (i j : Nat)
    (h : padStart6 (natDigits i) = padStart6 (natDigits j)) : i = j := by
  have := congrArg ofDigits h
  rwa [ofDigits_padStart6, ofDigits_padStart6, ofDigits_natDigits,
    ofDigits_natDigits] at this

namespace TP1

theorem openBracket_inj (t t' : SensitiveDataType)
    (h : openBracket t = openBracket t') : t = t' := by
  cases t <;> cases t' <;> revert h <;> decide

/-- The deterministic tag determines both the kind and the sequence
number. -/
theorem generatePlaceholder_inj (t t' : SensitiveDataType) (i j : Nat)
    (h : generatePlaceholder t i = generatePlaceholder t' j) : t = t' ∧ i = j := by
  have ht : t = t' := by
    unfold generatePlaceholder at h
    injection h with h1 h2
    injection h2 with h3 h4
    exact openBracket_inj t t' h3
  subst ht
  refine ⟨rfl, ?_⟩
  unfold generatePlaceholder at h
  injection h with h1 h2
  injection h2 with h3 h4
  have h5 := List.append_cancel_right h4
  have h6 := List.append_cancel_left h5
  exact padStart6_natDigits_inj i j h6
end TP1

namespace TP1

theorem assocFind_mem (l : List (List Char × List Char)) (k p : List Char)
    (h : assocFind l k = some p) : (k, p) ∈ l := by
  induction l with
  | nil => cases h
  | cons a l ih =>
    unfold assocFind at h
    by_cases hk : a.1 = k
    · rw [List.find?_cons_of_pos _ (by simpa using hk)] at h
      have : a.2 = p := by simpa using h
      subst this
      rw [← hk]
      exact List.mem_cons_self a l
    · rw [List.find?_cons_of_neg _ (by simpa using hk)] at h
      exact List.mem_cons_of_mem a (ih h)

theorem assocFind_eq_none (l : List (List Char × List Char)) (k : List Char)
    (h : assocFind l k = none) : ∀ p ∈ l, p.1 ≠ k := by
  induction l with
  | nil => intro p hp; cases hp
  | cons a l ih =>
    intro p hp
    unfold assocFind at h
    by_cases hk : a.1 = k
    · rw [List.find?_cons_of_pos _ (by simpa using hk)] at h
      cases h
    · rw [List.find?_cons_of_neg _ (by simpa using hk)] at h
      rcases List.mem_cons.1 hp with rfl | hp'
      · exact hk
      · exact ih h p hp'

/-- Two distinct members of a pairwise-related list are related one way
or the other. -/
theorem pairwise_mem_rel {α : Type} {R : α → α → Prop} {l : List α}
    (h : l.Pairwise R) {a b : α} (ha : a ∈ l) (hb : b ∈ l) (hne : a ≠ b) :
    R a b ∨ R b a := by
  induction l with
  | nil => cases ha
  | cons x xs ih =>
    rcases List.mem_cons.1 ha with rfl | ha' <;> rcases List.mem_cons.1 hb with rfl | hb'
    · exact absurd rfl hne
    · exact Or.inl ((List.pairwise_cons.1 h).1 b hb')
    · exact Or.inr ((List.pairwise_cons.1 h).1 a ha')
    · exact ih (List.pairwise_cons.1 h).2 ha' hb'

/-- The invariant threaded through the detector loops: every seen
placeholder was generated with a sequence number below the current
counter, seen entries are pairwise distinct in value and in placeholder,
and every pushed entity's (value, placeholder) pair is recorded in the
seen map. -/
def SeenInv (st : DState) : Prop :=
  (∀ p ∈ st.seen, ∃ t j, j < st.idx ∧ p.2 = generatePlaceholder t j) ∧
  st.seen.Pairwise (fun a b => a.1 ≠ b.1 ∧ a.2 ≠ b.2) ∧
  (∀ e ∈ st.entities, (e.value, e.placeholder) ∈ st.seen)

theorem stepCommon_inv (t : SensitiveDataType) (st : DState) (m : Nat × List Char)
    (h : SeenInv st) : SeenInv (stepCommon t st m) := by
  obtain ⟨hgen, hpw, hent⟩ := h
  unfold stepCommon
  cases hfind : assocFind st.seen m.2 with
  | some p =>
    refine ⟨hgen, hpw, ?_⟩
    intro e he
    rcases List.mem_append.1 he with he' | he'
    · exact hent e he'
    · have : e = ⟨t, m.2, p, m.1⟩ := by simpa using he'
      subst this
      exact assocFind_mem _ _ _ hfind
  | none =>
    have hkeys := assocFind_eq_none _ _ hfind
    refine ⟨?_, ?_, ?_⟩
    · intro p hp
      rcases List.mem_append.1 hp with hp' | hp'
      · obtain ⟨t', j, hj, hpj⟩ := hgen p hp'
        exact ⟨t', j, Nat.lt_succ_of_lt hj, hpj⟩
      · have : p = (m.2, generatePlaceholder t st.idx) := by simpa using hp'
        subst this
        exact ⟨t, st.idx, Nat.lt_succ_self _, rfl⟩
    · rw [List.pairwise_append]
      refine ⟨hpw, List.pairwise_singleton _ _, ?_⟩
      intro a ha b hb
      have : b = (m.2, generatePlaceholder t st.idx) := by simpa using hb
      subst this
      refine ⟨hkeys a ha, ?_⟩
      obtain ⟨t', j, hj, hpj⟩ := hgen a ha
      rw [hpj]
      intro hcontra
      have := (generatePlaceholder_inj t' t j st.idx hcontra).2
      omega
    · intro e he
      rcases List.mem_append.1 he with he' | he'
      · exact List.mem_append_left _ (hent e he')
      · have : e = ⟨t, m.2, generatePlaceholder t st.idx, m.1⟩ := by simpa using he'
        subst this
        exact List.mem_append_right _ (by simp)

theorem stepAccount_inv (st : DState) (m : Nat × List Char)
    (h : SeenInv st) : SeenInv (stepAccount st m) := by
  unfold stepAccount
  split
  · exact h
  · exact stepCommon_inv .account st m h

theorem foldl_stepCommon_inv (t : SensitiveDataType) (ms : List (Nat × List Char))
    (st : DState) (h : SeenInv st) : SeenInv (ms.foldl (stepCommon t) st) := by
  induction ms generalizing st with
  | nil => exact h
  | cons m ms ih => exact ih _ (stepCommon_inv t st m h)

theorem foldl_stepAccount_inv (ms : List (Nat × List Char)) (st : DState)
    (h : SeenInv st) : SeenInv (ms.foldl stepAccount st) := by
  induction ms generalizing st with
  | nil => exact h
  | cons m ms ih => exact ih _ (stepAccount_inv st m h)

theorem detectState_inv (text : List Char) : SeenInv (detectState text) := by
  unfold detectState
  refine foldl_stepAccount_inv _ _ ?_
  refine foldl_stepCommon_inv _ _ _ ?_
  refine foldl_stepCommon_inv _ _ _ ?_
  refine foldl_stepCommon_inv _ _ _ ?_
  refine foldl_stepCommon_inv _ _ _ ?_
  refine foldl_stepCommon_inv _ _ _ ?_
  refine foldl_stepCommon_inv _ _ _ ?_
  exact ⟨fun p hp => absurd hp (List.not_mem_nil p),
    List.Pairwise.nil, fun e he => absurd he (List.not_mem_nil e)⟩

theorem mem_insertAsc (e x : DetectedEntity) (l : List DetectedEntity) :
    x ∈ insertAsc e l ↔ x ∈ e :: l := by
  induction l with
  | nil => simp [insertAsc]
  | cons y ys ih =>
    unfold insertAsc
    split
    · rfl
    · rw [List.mem_cons, ih]
      simp only [List.mem_cons]
      tauto

theorem mem_sortAsc (x : DetectedEntity) (l : List DetectedEntity) :
    x ∈ sortAsc l ↔ x ∈ l := by
  induction l with
  | nil => rfl
  | cons y ys ih =>
    unfold sortAsc
    rw [mem_insertAsc, List.mem_cons, List.mem_cons, ih]

/-- Entities reported by the detector carry value/placeholder pairs of
the final seen map, which is injective in both directions. -/
theorem detect_entity_pairs (text : List Char) (e : DetectedEntity)
    (h : e ∈ detectSensitiveData text) :
    (e.value, e.placeholder) ∈ (detectState text).seen :=
  (detectState_inv text).2.2 e ((mem_sortAsc e _).1 h)

end TP1

namespace TP2

theorem mapGet_mapSet_self (m : Mappings) (k : List Char) (v : SubstitutionMapping) :
    mapGet (mapSet m k v) k = some v := by
  induction m with
  | nil => simp [mapSet, mapGet]
  | cons p rest ih =>
    unfold mapSet
    by_cases hk : p.1 = k
    · rw [if_pos hk]
      simp [mapGet]
    · rw [if_neg hk]
      unfold mapGet at ih ⊢
      rw [List.find?_cons_of_neg _ (by simpa using hk)]
      exact ih

/-- A second `generateSubstitute` call with an already-seen value
returns the substitute recorded by the first call. -/
theorem generateSubstitute_idem (sess : Mappings) (t t' : SensitiveDataType)
    (v : List Char) (u u' : UsedMap) (r r' : Nat) :
    (generateSubstitute (generateSubstitute sess t v u r).2.1 t' v u' r').1 =
      (generateSubstitute sess t v u r).1 := by
  unfold generateSubstitute
  cases hfind : mapGet sess v with
  | some m => rw [hfind]
  | none =>
    rw [mapGet_mapSet_self]

end TP2

/-- C6 counterexample: under the realistic-substitute strategy, two
distinct SSN values processed in one session both receive the substitute
`[REDACTED-SSN]` — the pool-less kinds ignore the used-substitutes set
entirely, so distinct values collide. -/
theorem C6_counterexample :
    "111-11-1111".data ≠ "222-22-2222".data ∧
    (TP2.generateSubstitute TP2.clearSessionMappings TP2.SensitiveDataType.ssn
        "111-11-1111".data ([] : TP2.UsedMap) 0).1 =
      (TP2.generateSubstitute
          (TP2.generateSubstitute TP2.clearSessionMappings TP2.SensitiveDataType.ssn
            "111-11-1111".data ([] : TP2.UsedMap) 0).2.1
          TP2.SensitiveDataType.ssn "222-22-2222".data
          (TP2.generateSubstitute TP2.clearSessionMappings TP2.SensitiveDataType.ssn
            "111-11-1111".data ([] : TP2.UsedMap) 0).2.2 0).1 := by
  exact ⟨by decide, by decide⟩

/-- C6 as amended: uniqueness holds for the deterministic-tag strategy —
in any one detection pass, entities with distinct original values always
receive distinct placeholders (the sequence counter and the injectivity
of the tag format guarantee it).  The realistic-substitute strategy
violates uniqueness: kinds without a curated pool always yield the same
`[REDACTED-KIND]` tag, and values first seen in different detection
calls of one session can draw the same pool entry. -/
theorem C6_unique_deterministic (text : List Char) (e1 e2 : TP1.DetectedEntity)
    (h1 : e1 ∈ TP1.detectSensitiveData text) (h2 : e2 ∈ TP1.detectSensitiveData text)
    (hne : e1.value ≠ e2.value) : e1.placeholder ≠ e2.placeholder := by
  have p1 := TP1.detect_entity_pairs text e1 h1
  have p2 := TP1.detect_entity_pairs text e2 h2
  have hpw := (TP1.detectState_inv text).2.1
  intro heq
  have hnepair : ((e1.value, e1.placeholder) : List Char × List Char) ≠
      (e2.value, e2.placeholder) := by
    intro hc
    exact hne (congrArg Prod.fst hc)
  rcases TP1.pairwise_mem_rel hpw p1 p2 hnepair with h | h
  · exact h.2 heq
  · exact h.2 heq.symm

/-- C6 witness: the two distinct names of `"Al Bo, Ed Fi"` receive
distinct placeholders. -/
theorem C6_unique_deterministic_witness :
    TP1.generatePlaceholder TP1.SensitiveDataType.name 0 ≠
      TP1.generatePlaceholder TP1.SensitiveDataType.name 1 :=
  C6_unique_deterministic "Al Bo, Ed Fi".data
    ⟨TP1.SensitiveDataType.name, "Al Bo".data,
      TP1.generatePlaceholder TP1.SensitiveDataType.name 0, 0⟩
    ⟨TP1.SensitiveDataType.name, "Ed Fi".data,
      TP1.generatePlaceholder TP1.SensitiveDataType.name 1, 7⟩
    (by decide) (by decide) (by decide)

/-- C7: repeated literal values are consistent — any two entities of one
detection pass with equal values carry equal placeholders, and calling
the realistic substitute generator again with an already-seen value
returns the previously assigned substitute. -/
theorem C7_consistency (text : List Char) (e1 e2 : TP1.DetectedEntity)
    (h1 : e1 ∈ TP1.detectSensitiveData text) (h2 : e2 ∈ TP1.detectSensitiveData text)
    (sess : TP2.Mappings) (t t' : TP2.SensitiveDataType) (v : List Char)
    (u u' : TP2.UsedMap) (r r' : Nat) :
    (e1.value = e2.value → e1.placeholder = e2.placeholder) ∧
    (TP2.generateSubstitute (TP2.generateSubstitute sess t v u r).2.1 t' v u' r').1 =
      (TP2.generateSubstitute sess t v u r).1 := by
  refine ⟨?_, TP2.generateSubstitute_idem sess t t' v u u' r r'⟩
  intro hv
  have p1 := TP1.detect_entity_pairs text e1 h1
  have p2 := TP1.detect_entity_pairs text e2 h2
  have hpw := (TP1.detectState_inv text).2.1
  by_contra hne
  have hnepair : ((e1.value, e1.placeholder) : List Char × List Char) ≠
      (e2.value, e2.placeholder) := by
    intro hc
    exact hne (congrArg Prod.snd hc)
  rcases TP1.pairwise_mem_rel hpw p1 p2 hnepair with h | h
  · exact h.1 hv
  · exact h.1 hv.symm

/-- C7 witness: the value `"Al Bo"`, appearing twice in
`"Al Bo and Al Bo"`, receives the same placeholder both times, and a
repeated generator call returns the recorded substitute. -/
theorem C7_consistency_witness :
    TP1.generatePlaceholder TP1.SensitiveDataType.name 0 =
      TP1.generatePlaceholder TP1.SensitiveDataType.name 0 ∧
    (TP2.generateSubstitute
        (TP2.generateSubstitute TP2.clearSessionMappings TP2.SensitiveDataType.name
          "Al Bo".data ([] : TP2.UsedMap) 0).2.1
        TP2.SensitiveDataType.name "Al Bo".data ([] : TP2.UsedMap) 5).1 =
      (TP2.generateSubstitute TP2.clearSessionMappings TP2.SensitiveDataType.name
        "Al Bo".data ([] : TP2.UsedMap) 0).1 :=
  have h := C7_consistency "Al Bo and Al Bo".data
    ⟨TP1.SensitiveDataType.name, "Al Bo".data,
      TP1.generatePlaceholder TP1.SensitiveDataType.name 0, 0⟩
    ⟨TP1.SensitiveDataType.name, "Al Bo".data,
      TP1.generatePlaceholder TP1.SensitiveDataType.name 0, 10⟩
    (by decide) (by decide)
    TP2.clearSessionMappings TP2.SensitiveDataType.name TP2.SensitiveDataType.name
    "Al Bo".data ([] : TP2.UsedMap) ([] : TP2.UsedMap) 0 5
  ⟨h.1 rfl, h.2⟩

/- ----------------------------------------------------------------- -/
/- C1: the round trip.  A masked text decomposes into marker-free gap
   segments interleaved with placeholder blocks; because every
   placeholder begins with the zero-width marker and neither the gaps
   nor the original values contain it, each restore step hits exactly
   its own block. -/

theorem lcStartsWith_append_self (P X : List Char) : lcStartsWith (P ++ X) P = true := by
  induction P with
  | nil =>
    cases X <;> rfl
  | cons c cs ih =>
    show (c == c && lcStartsWith (cs ++ X) cs) = true
    simp [ih]

theorem strIncludes_of_startsWith (A X P : List Char) (h : lcStartsWith X P = true) :
    strIncludes (A ++ X) P = true := by
  induction A with
  | nil =>
    cases X with
    | nil =>
      cases P with
      | nil => rfl
      | cons p ps => exact absurd h (by simp [lcStartsWith])
    | cons c cs =>
      show (lcStartsWith (c :: cs) P || strIncludes cs P) = true
      rw [h]
      rfl
  | cons a A ih =>
    show (lcStartsWith (a :: (A ++ X)) P || strIncludes (A ++ X) P) = true
    rw [ih]
    simp

theorem strIncludes_append_right (C X P : List Char) (h : strIncludes X P = true) :
    strIncludes (C ++ X) P = true := by
  induction C with
  | nil => exact h
  | cons c cs ih =>
    show (lcStartsWith (c :: (cs ++ X)) P || strIncludes (cs ++ X) P) = true
    rw [ih]
    simp

theorem lcStartsWith_zwsp_false (c : Char) (l r : List Char) (hc : c ≠ ZWSP) :
    lcStartsWith (c :: l) (ZWSP :: r) = false := by
  show (c == ZWSP && lcStartsWith l r) = false
  simp [hc]

theorem strIncludes_append_fresh (C X r : List Char) (hC : ∀ c ∈ C, c ≠ ZWSP) :
    strIncludes (C ++ X) (ZWSP :: r) = strIncludes X (ZWSP :: r) := by
  induction C with
  | nil => rfl
  | cons c cs ih =>
    show (lcStartsWith (c :: (cs ++ X)) (ZWSP :: r) ||
        strIncludes (cs ++ X) (ZWSP :: r)) = strIncludes X (ZWSP :: r)
    rw [lcStartsWith_zwsp_false c _ r (hC c (List.mem_cons_self c cs)),
      ih (fun x hx => hC x (List.mem_cons_of_mem c hx))]
    rfl

theorem replaceFirstLit_append_fresh (C X r v : List Char) (hC : ∀ c ∈ C, c ≠ ZWSP) :
    replaceFirstLit (C ++ X) (ZWSP :: r) v = C ++ replaceFirstLit X (ZWSP :: r) v := by
  induction C with
  | nil => rfl
  | cons c cs ih =>
    show (if lcStartsWith (c :: (cs ++ X)) (ZWSP :: r) = true
          then v ++ (c :: (cs ++ X)).drop (ZWSP :: r).length
          else c :: replaceFirstLit (cs ++ X) (ZWSP :: r) v) =
        (c :: cs) ++ replaceFirstLit X (ZWSP :: r) v
    rw [lcStartsWith_zwsp_false c _ r (hC c (List.mem_cons_self c cs))]
    simp only [Bool.false_eq_true, if_false, List.cons_append]
    rw [ih (fun x hx => hC x (List.mem_cons_of_mem c hx))]

theorem replaceFirstLit_self_append (P X v : List Char) (hne : P ≠ []) :
    replaceFirstLit (P ++ X) P v = v ++ X := by
  cases P with
  | nil => exact absurd rfl hne
  | cons p ps =>
    show (if lcStartsWith (p :: (ps ++ X)) (p :: ps) = true
          then v ++ ((p :: ps) ++ X).drop (p :: ps).length
          else p :: replaceFirstLit (ps ++ X) (p :: ps) v) = v ++ X
    rw [show (p :: (ps ++ X)) = (p :: ps) ++ X from rfl, lcStartsWith_append_self]
    rw [if_pos rfl, List.drop_left]

/-- On a `$`-free replacement the GetSubstitution expansion is the
replacement itself. -/
theorem getSubstitution_literal (matched pre post repl : List Char)
    (h : ∀ c ∈ repl, c ≠ '$') :
    getSubstitution matched pre post repl = repl := by
  induction repl with
  | nil => rfl
  | cons c rest ih =>
    have hc : c ≠ '$' := h c (List.mem_cons_self c rest)
    cases rest with
    | nil => rfl
    | cons d rest' =>
      show (if c = '$' then _ else
          c :: getSubstitution matched pre post (d :: rest')) = c :: d :: rest'
      rw [if_neg hc, ih (fun x hx => h x (List.mem_cons_of_mem c hx))]

/-- With a `$`-free replacement, faithful `replace` coincides with the
literal replacement. -/
theorem replaceFirst_of_startsWith (hay pat repl : List Char)
    (hs : lcStartsWith hay pat = true) (h : ∀ c ∈ repl, c ≠ '$') :
    replaceFirst hay pat repl = repl ++ hay.drop pat.length := by
  have hfi : findFirstIdx? hay pat = some 0 := by
    cases hay <;> simp [findFirstIdx?, hs]
  unfold replaceFirst
  rw [hfi]
  show hay.take 0 ++
      getSubstitution pat (hay.take 0) (hay.drop (0 + pat.length)) repl ++
      hay.drop (0 + pat.length) = repl ++ hay.drop pat.length
  rw [getSubstitution_literal _ _ _ _ h]
  simp

theorem replaceFirst_cons_of_not_startsWith (c : Char) (cs pat repl : List Char)
    (hs : ¬ lcStartsWith (c :: cs) pat = true) (h : ∀ x ∈ repl, x ≠ '$') :
    replaceFirst (c :: cs) pat repl = c :: replaceFirst cs pat repl := by
  have hfi : findFirstIdx? (c :: cs) pat = (findFirstIdx? cs pat).map (fun i => i + 1) := by
    simp [findFirstIdx?, hs]
  unfold replaceFirst
  rw [hfi]
  cases hin : findFirstIdx? cs pat with
  | none => rfl
  | some q =>
    show (c :: cs).take (q + 1) ++
        getSubstitution pat ((c :: cs).take (q + 1))
          ((c :: cs).drop (q + 1 + pat.length)) repl ++
        (c :: cs).drop (q + 1 + pat.length) =
      c :: (cs.take q ++ getSubstitution pat (cs.take q) (cs.drop (q + pat.length)) repl ++
        cs.drop (q + pat.length))
    rw [getSubstitution_literal _ _ _ _ h, getSubstitution_literal _ _ _ _ h]
    have h2 : (c :: cs).drop (q + 1 + pat.length) = cs.drop (q + pat.length) := by
      have hq : q + 1 + pat.length = (q + pat.length) + 1 := by omega
      rw [hq]
      rfl
    have h1 : (c :: cs).take (q + 1) = c :: cs.take q := rfl
    rw [h1, h2]
    simp only [List.cons_append]

/-- With a `$`-free replacement, the faithful `replace` coincides with
literal replacement. -/
theorem replaceFirst_eq_lit (hay pat repl : List Char)
    (h : ∀ c ∈ repl, c ≠ '$') :
    replaceFirst hay pat repl = replaceFirstLit hay pat repl := by
  induction hay with
  | nil =>
    by_cases hp : lcStartsWith [] pat = true
    · have hpe : pat = [] := by
        cases pat with
        | nil => rfl
        | cons q qs => exact absurd hp (by simp [lcStartsWith])
      subst hpe
      rw [replaceFirst_of_startsWith [] [] repl hp h]
      simp [replaceFirstLit]
    · have hfi : findFirstIdx? [] pat = none := by
        simp [findFirstIdx?, hp]
      unfold replaceFirst
      rw [hfi]
      cases pat with
      | nil => simp [lcStartsWith] at hp
      | cons q qs => rfl
  | cons c cs ih =>
    by_cases hs : lcStartsWith (c :: cs) pat = true
    · have hlit : replaceFirstLit (c :: cs) pat repl =
          repl ++ (c :: cs).drop pat.length := by
        show (if lcStartsWith (c :: cs) pat = true
            then repl ++ (c :: cs).drop pat.length
            else c :: replaceFirstLit cs pat repl) = repl ++ (c :: cs).drop pat.length
        rw [if_pos hs]
      rw [replaceFirst_of_startsWith (c :: cs) pat repl hs h, hlit]
    · have hlit : replaceFirstLit (c :: cs) pat repl =
          c :: replaceFirstLit cs pat repl := by
        show (if lcStartsWith (c :: cs) pat = true
            then repl ++ (c :: cs).drop pat.length
            else c :: replaceFirstLit cs pat repl) = c :: replaceFirstLit cs pat repl
        rw [if_neg hs]
      rw [replaceFirst_cons_of_not_startsWith c cs pat repl hs h, ih, hlit]

/-- `replace` distributes over a marker-free prefix when the replacement
is `$`-free. -/
theorem replaceFirst_append_fresh (C X r v : List Char)
    (hC : ∀ c ∈ C, c ≠ ZWSP) (hv : ∀ c ∈ v, c ≠ '$') :
    replaceFirst (C ++ X) (ZWSP :: r) v = C ++ replaceFirst X (ZWSP :: r) v := by
  rw [replaceFirst_eq_lit _ _ _ hv, replaceFirst_eq_lit _ _ _ hv]
  exact replaceFirstLit_append_fresh C X r v hC

/-- `replace` resolves a leading exact occurrence when the replacement
is `$`-free. -/
theorem replaceFirst_self_append (P X v : List Char) (hne : P ≠ [])
    (hv : ∀ c ∈ v, c ≠ '$') :
    replaceFirst (P ++ X) P v = v ++ X := by
  rw [replaceFirst_eq_lit _ _ _ hv]
  exact replaceFirstLit_self_append P X v hne

namespace TP1

/-- Well-placed entities: spans are in ascending order, pairwise
disjoint, inside the text, nonempty, and each records exactly the
substring of `T` at its index. -/
inductive Spans (T : List Char) : Nat → List DetectedEntity → Prop
  | nil (off : Nat) : Spans T off []
  | cons (off : Nat) (e : DetectedEntity) (es : List DetectedEntity)
      (hoff : off ≤ e.index)
      (hne : e.value ≠ [])
      (hlen : e.index + e.value.length ≤ T.length)
      (hval : (T.drop e.index).take e.value.length = e.value)
      (hrest : Spans T (e.index + e.value.length) es) :
      Spans T off (e :: es)

theorem Spans.lowerBound {T : List Char} {off : Nat} {es : List DetectedEntity}
    (h : Spans T off es) : ∀ e ∈ es, off ≤ e.index := by
  induction h with
  | nil => intro e he; cases he
  | cons off e es hoff hne hlen hval hrest ih =>
    intro e' he'
    rcases List.mem_cons.1 he' with rfl | he''
    · exact hoff
    · exact Nat.le_trans (Nat.le_trans hoff (Nat.le_add_right _ _)) (ih e' he'')

theorem Spans.value_mem {T : List Char} {off : Nat} {es : List DetectedEntity}
    (h : Spans T off es) : ∀ e ∈ es, ∀ c ∈ e.value, c ∈ T := by
  induction h with
  | nil off => intro e he; cases he
  | cons off e es hoff hne hlen hval hrest ih =>
    intro e' he' c hc
    rcases List.mem_cons.1 he' with rfl | hmem
    · rw [← hval] at hc
      exact List.mem_of_mem_drop (List.mem_of_mem_take hc)
    · exact ih e' hmem c hc

theorem Spans.pairwise_lt {T : List Char} {off : Nat} {es : List DetectedEntity}
    (h : Spans T off es) : es.Pairwise (fun a b => a.index < b.index) := by
  induction h with
  | nil => exact List.Pairwise.nil
  | cons off e es hoff hne hlen hval hrest ih =>
    refine List.pairwise_cons.2 ⟨?_, ih⟩
    intro e' he'
    have hlb := hrest.lowerBound e' he'
    have hv : 0 < e.value.length := List.length_pos.2 hne
    omega

theorem insertDesc_all_lt (e : DetectedEntity) (l : List DetectedEntity)
    (h : ∀ y ∈ l, e.index < y.index) : insertDesc e l = l ++ [e] := by
  induction l with
  | nil => rfl
  | cons y ys ih =>
    unfold insertDesc
    rw [if_neg (by
      have := h y (List.mem_cons_self y ys)
      omega)]
    rw [ih (fun x hx => h x (List.mem_cons_of_mem y hx))]
    rfl

/-- On strictly ascending indices the stable descending sort is exactly
the reverse. -/
theorem sortDesc_eq_reverse (es : List DetectedEntity)
    (h : es.Pairwise (fun a b => a.index < b.index)) : sortDesc es = es.reverse := by
  induction es with
  | nil => rfl
  | cons e es ih =>
    have hc := List.pairwise_cons.1 h
    unfold sortDesc
    rw [ih hc.2, insertDesc_all_lt e es.reverse (fun y hy => hc.1 y (List.mem_reverse.1 hy)),
      List.reverse_cons]

/-- The masked text in interleaved form: gap before the next entity,
its placeholder, recursively masked remainder. -/
def maskedForm (T : List Char) : Nat → List DetectedEntity → List Char
  | off, [] => T.drop off
  | off, e :: es =>
    (T.drop off).take (e.index - off) ++ e.placeholder ++
      maskedForm T (e.index + e.value.length) es

/-- `maskText` on well-placed entities produces the interleaved form
(the back-to-front splices never disturb earlier offsets). -/
theorem foldr_splice_eq_maskedForm (T : List Char) (es : List DetectedEntity)
    (off : Nat) (h : Spans T off es) :
    es.foldr (fun e M => splice M e) T = T.take off ++ maskedForm T off es := by
  induction h with
  | nil off => exact (List.take_append_drop off T).symm
  | cons off e es hoff hne hlen hval hrest ih =>
    rw [List.foldr_cons, ih]
    unfold splice maskedForm
    have hlentake : (T.take (e.index + e.value.length)).length = e.index + e.value.length := by
      rw [List.length_take]
      omega
    rw [List.take_append_eq_append_take, List.drop_append_eq_append_drop]
    rw [hlentake]
    rw [List.take_take, List.drop_take]
    have h1 : min e.index (e.index + e.value.length) = e.index := by omega
    have h2 : e.index - (e.index + e.value.length) = 0 := by omega
    have h3 : e.index + e.value.length - (e.index + e.value.length) = 0 := by omega
    rw [h1, h2, h3]
    simp only [List.take_zero, List.append_nil, List.drop_zero]
    have h4 : (T.drop (e.index + e.value.length)).take 0 = [] := List.take_zero _
    have h5 : T.take e.index = T.take off ++ (T.drop off).take (e.index - off) := by
      have heq : off + (e.index - off) = e.index := by omega
      conv_lhs => rw [← heq]
      rw [List.take_add]
    rw [List.append_assoc, List.append_assoc]
    rw [h5]
    simp only [List.append_assoc, List.append_cancel_left_eq]
    cases es <;> simp [maskedForm]

end TP1

namespace TP1

/-- Restoring distributes over a marker-free prefix. -/
theorem foldl_restoreStep_fresh_append (es : List DetectedEntity) (C X : List Char)
    (hC : ∀ c ∈ C, c ≠ ZWSP)
    (hP : ∀ e ∈ es, ∃ r, e.placeholder = ZWSP :: r)
    (hV : ∀ e ∈ es, ∀ c ∈ e.value, c ≠ '$') :
    es.foldl restoreStep (C ++ X) = C ++ es.foldl restoreStep X := by
  induction es generalizing X with
  | nil => rfl
  | cons e es ih =>
    obtain ⟨r, hr⟩ := hP e (List.mem_cons_self e es)
    rw [List.foldl_cons, List.foldl_cons]
    have hstep : restoreStep (C ++ X) e = C ++ restoreStep X e := by
      unfold restoreStep
      rw [hr, strIncludes_append_fresh C X r hC]
      split
      · exact replaceFirst_append_fresh C X r e.value hC
          (hV e (List.mem_cons_self e es))
      · rfl
    rw [hstep]
    exact ih (restoreStep X e) (fun e' he' => hP e' (List.mem_cons_of_mem e he'))
      (fun e' he' => hV e' (List.mem_cons_of_mem e he'))

/-- The first restore loop peels the interleaved masked form back to the
original text: each step hits exactly its own placeholder block. -/
theorem restore_loop_maskedForm (T : List Char) (off : Nat) (es : List DetectedEntity)
    (hT : ∀ c ∈ T, c ≠ ZWSP) (hD : ∀ c ∈ T, c ≠ '$') (h : Spans T off es)
    (hP : ∀ e ∈ es, ∃ r, e.placeholder = ZWSP :: r) :
    es.foldl restoreStep (maskedForm T off es) = T.drop off := by
  induction h with
  | nil off => rfl
  | cons off e es hoff hne hlen hval hrest ih =>
    obtain ⟨r, hr⟩ := hP e (List.mem_cons_self e es)
    have hPrest : ∀ e' ∈ es, ∃ r', e'.placeholder = ZWSP :: r' :=
      fun e' he' => hP e' (List.mem_cons_of_mem e he')
    have hA : ∀ c ∈ (T.drop off).take (e.index - off), c ≠ ZWSP :=
      fun c hc => hT c (List.mem_of_mem_drop (List.mem_of_mem_take hc))
    have hv : ∀ c ∈ e.value, c ≠ ZWSP := by
      rw [← hval]
      exact fun c hc => hT c (List.mem_of_mem_drop (List.mem_of_mem_take hc))
    have hvD : ∀ c ∈ e.value, c ≠ '$' := by
      rw [← hval]
      exact fun c hc => hD c (List.mem_of_mem_drop (List.mem_of_mem_take hc))
    rw [List.foldl_cons]
    have hstep : restoreStep (maskedForm T off (e :: es)) e =
        ((T.drop off).take (e.index - off) ++ e.value) ++
          maskedForm T (e.index + e.value.length) es := by
      have hm : maskedForm T off (e :: es) =
          (T.drop off).take (e.index - off) ++ e.placeholder ++
            maskedForm T (e.index + e.value.length) es := rfl
      unfold restoreStep
      rw [hm, List.append_assoc, hr]
      rw [strIncludes_append_fresh _ _ r hA]
      have hinc : strIncludes ((ZWSP :: r) ++ maskedForm T (e.index + e.value.length) es)
          (ZWSP :: r) = true := by
        have := strIncludes_of_startsWith []
          ((ZWSP :: r) ++ maskedForm T (e.index + e.value.length) es) (ZWSP :: r)
          (lcStartsWith_append_self _ _)
        simpa using this
      rw [hinc, if_pos rfl]
      rw [replaceFirst_append_fresh _ _ r e.value hA hvD]
      rw [replaceFirst_self_append _ _ _ (by simp) hvD]
      exact (List.append_assoc _ _ _).symm
    rw [hstep]
    rw [foldl_restoreStep_fresh_append es _ _
      (fun c hc => by
        rcases List.mem_append.1 hc with h' | h'
        · exact hA c h'
        · exact hv c h') hPrest
      (fun e' he' c hc => hD c (hrest.value_mem e' he' c hc))]
    rw [ih hPrest]
    have hdrop1 : (T.drop off).drop (e.index - off) = T.drop e.index := by
      rw [List.drop_drop]
      congr 1
      omega
    have hdrop2 : (T.drop e.index).drop e.value.length =
        T.drop (e.index + e.value.length) := by
      rw [List.drop_drop]
    calc ((T.drop off).take (e.index - off) ++ e.value) ++
          T.drop (e.index + e.value.length)
        = (T.drop off).take (e.index - off) ++
            (e.value ++ T.drop (e.index + e.value.length)) := by
          rw [List.append_assoc]
      _ = (T.drop off).take (e.index - off) ++
            ((T.drop e.index).take e.value.length ++
              (T.drop e.index).drop e.value.length) := by
          rw [hval, hdrop2]
      _ = (T.drop off).take (e.index - off) ++ T.drop e.index := by
          rw [List.take_append_drop]
      _ = (T.drop off).take (e.index - off) ++ (T.drop off).drop (e.index - off) := by
          rw [hdrop1]
      _ = T.drop off := List.take_append_drop _ _

/-- Every placeholder occurs verbatim in the interleaved masked form. -/
theorem maskedForm_includes (T : List Char) (off : Nat) (es : List DetectedEntity)
    (h : Spans T off es) :
    ∀ e' ∈ es, strIncludes (maskedForm T off es) e'.placeholder = true := by
  induction h with
  | nil off => intro e' he'; cases he'
  | cons off e es hoff hne hlen hval hrest ih =>
    intro e' he'
    rcases List.mem_cons.1 he' with rfl | hmem
    · show strIncludes ((T.drop off).take (e'.index - off) ++ e'.placeholder ++
        maskedForm T (e'.index + e'.value.length) es) e'.placeholder = true
      rw [List.append_assoc]
      exact strIncludes_of_startsWith _ _ _ (lcStartsWith_append_self _ _)
    · show strIncludes ((T.drop off).take (e.index - off) ++ e.placeholder ++
        maskedForm T (e.index + e.value.length) es) e'.placeholder = true
      rw [List.append_assoc]
      exact strIncludes_append_right _ _ _
        (strIncludes_append_right _ _ _ (ih e' hmem))

/-- A validator pass in which every placeholder is present reports
nothing. -/
theorem foldl_validateStep_id_of_included (text : List Char)
    (es : List DetectedEntity) (r : ValidationResult)
    (h : ∀ e ∈ es, strIncludes text e.placeholder = true) :
    es.foldl (validateStep text) r = r := by
  induction es generalizing r with
  | nil => rfl
  | cons e es ih =>
    rw [List.foldl_cons]
    have hstep : validateStep text r e = r := by
      unfold validateStep
      rw [h e (List.mem_cons_self e es), if_pos rfl]
    rw [hstep]
    exact ih _ (fun e' he' => h e' (List.mem_cons_of_mem e he'))

/-- `maskText` equals the interleaved form on well-placed entities. -/
theorem maskText_eq_maskedForm (T : List Char) (es : List DetectedEntity)
    (h : Spans T 0 es) : maskText T es = maskedForm T 0 es := by
  unfold maskText
  rw [sortDesc_eq_reverse es h.pairwise_lt, List.foldl_reverse]
  have := foldr_splice_eq_maskedForm T es 0 h
  simpa using this

end TP1

/-- C1 counterexample: on the input `"1 Ab Cd St"` the detector claims
two overlapping spans — the address `"1 Ab Cd St"` at offset 0 and the
name `"Ab Cd St"` at offset 2 inside it — and masking then restoring the
unmutated masked text does not reproduce the input. -/
theorem C1_counterexample :
    TP1.detectSensitiveData "1 Ab Cd St".data =
      [⟨TP1.SensitiveDataType.address, "1 Ab Cd St".data,
        TP1.generatePlaceholder TP1.SensitiveDataType.address 1, 0⟩,
       ⟨TP1.SensitiveDataType.name, "Ab Cd St".data,
        TP1.generatePlaceholder TP1.SensitiveDataType.name 0, 2⟩] ∧
    TP1.restoreText
        (TP1.maskText "1 Ab Cd St".data (TP1.detectSensitiveData "1 Ab Cd St".data))
        (TP1.detectSensitiveData "1 Ab Cd St".data) ≠ "1 Ab Cd St".data := by
  exact ⟨by decide, by decide⟩

/-- C1 as amended: the round trip
`restoreText (maskText T entities) entities = T` holds whenever the
entity spans are well-placed — ascending, pairwise disjoint, inside `T`,
nonempty, and each recording the exact substring of `T` at its index —
every placeholder begins with the zero-width marker, and `T` itself is
free of that marker and of the `$` character (JavaScript's `replace`
expands `$`-sequences of the replacement, so a value containing them
would be rewritten during restoration).  The claim as stated fails
because `detectSensitiveData` can emit overlapping spans. -/
theorem C1_roundtrip_amended (T : List Char) (es : List TP1.DetectedEntity)
    (hT : ∀ c ∈ T, c ≠ ZWSP)
    (hD : ∀ c ∈ T, c ≠ '$')
    (hs : TP1.Spans T 0 es)
    (hP : ∀ e ∈ es, ∃ r, e.placeholder = ZWSP :: r) :
    TP1.restoreText (TP1.maskText T es) es = T := by
  rw [TP1.maskText_eq_maskedForm T es hs]
  have hinc := TP1.maskedForm_includes T 0 es hs
  have hval : TP1.validatePlaceholdersDetailed (TP1.maskedForm T 0 es) es =
      ⟨true, [], [], [], true, []⟩ := by
    unfold TP1.validatePlaceholdersDetailed
    rw [TP1.foldl_validateStep_id_of_included _ _ _ hinc]
    rfl
  unfold TP1.restoreText
  rw [hval]
  rw [if_neg (by simp)]
  have := TP1.restore_loop_maskedForm T 0 es hT hD hs hP
  simpa using this

/-- C1 witness: the name `"Bob"` inside `"Hi Bob"` masks and restores
back to the original text. -/
theorem C1_roundtrip_amended_witness :
    TP1.restoreText
        (TP1.maskText "Hi Bob".data
          [⟨TP1.SensitiveDataType.name, "Bob".data,
            TP1.generatePlaceholder TP1.SensitiveDataType.name 0, 3⟩])
        [⟨TP1.SensitiveDataType.name, "Bob".data,
          TP1.generatePlaceholder TP1.SensitiveDataType.name 0, 3⟩] = "Hi Bob".data :=
  C1_roundtrip_amended "Hi Bob".data
    [⟨TP1.SensitiveDataType.name, "Bob".data,
      TP1.generatePlaceholder TP1.SensitiveDataType.name 0, 3⟩]
    (by decide)
    (by decide)
    (TP1.Spans.cons 0
      ⟨TP1.SensitiveDataType.name, "Bob".data,
        TP1.generatePlaceholder TP1.SensitiveDataType.name 0, 3⟩
      [] (by decide) (by decide) (by decide) (by decide) (TP1.Spans.nil _))
    (by
      intro e he
      have he' : e = ⟨TP1.SensitiveDataType.name, "Bob".data,
          TP1.generatePlaceholder TP1.SensitiveDataType.name 0, 3⟩ := by
        simpa using he
      subst he'
      exact ⟨_, rfl⟩)
